import Mathlib

/-!
# A shallow embedding of the optree `PyTreeSpec` core

This development embeds the `PyTreeSpec` subsystem of the optree C++ sources
(`src/treespec/treespec.cpp`, `include/treespec.h`, `include/utils.h`,
`src/optree.cpp`) into Lean and proves the specification's claims about it.

Modelling conventions:

* Host (Python) objects are modelled by the inductive type `PyObj`; host-value
  equality (`py::object::not_equal`) is structural equality of `PyObj`, and the
  host hash `py::hash` is modelled by the fixed function `pyHash` (its exact
  values are irrelevant to every claim proved here).
* A null `py::object` (default-constructed, `ptr() == nullptr`) is
  `Option.none`; a handle to the Python `None` object is `some PyObj.none`.
  This distinction matters: `PyTreeSpec::operator==` compares nullity, and
  `ToPicklable` collapses a null `node_data` to the `None` object.
* `ssize_t` is modelled by `Int`.
* C++ exceptions (`throw`, and the `EXPECT_*` macros of `include/exceptions.h`,
  which raise `InternalError` on a failed check) are modelled by
  `Except String`; the message strings are abbreviations of the C++ messages.
* The absl hash (`AbslHashValue` / `H::combine`) is modelled by its
  "fingerprint": the tuple of all data fed into the combiner.  Two hashes are
  equal exactly when their fingerprints are equal; hash collisions between
  different fingerprints are abstracted away.
* The custom-type registry (`include/registry.h`, not under `src/`) is
  modelled from the spec: a `Registration` carries the registered host type
  and an identity tag standing for the C++ object's address (registration
  pointer identity is equality of `Registration` values), and a registry is an
  opaque lookup function `PyObj → String → Bool → Option Registration`
  standing for `PyTreeTypeRegistry::Lookup<NoneIsLeaf>(type, namespace)`.
-/

/-- The kinds of nodes, after `PyTreeKind` (declared in `include/registry.h`).
Modelled from the spec: the enum itself is not under `src/`; the spec's §3
table lists the closed set of kinds.  The ordinal values used by the codec are
fixed by `kindOrd` below; no claim depends on the particular numbering. -/
inductive PyTreeKind where
  | Custom
  | Leaf
  | None
  | Tuple
  | List
  | Dict
  | NamedTuple
  | OrderedDict
  | DefaultDict
  | Deque
  | StructSequence
deriving DecidableEq

mutual

/-- A model of host (Python) values, as far as the treespec core inspects
them: the `None` singleton, booleans, integers, strings, tuples, lists and
type objects (identified by a tag standing for the type's address).
Sequences use the companion type `PyObjList` (a plain cons-list). -/
inductive PyObj where
  | none
  | bool (b : Bool)
  | int (i : Int)
  | str (s : String)
  | tuple (xs : PyObjList)
  | list (xs : PyObjList)
  | pytype (id : Nat)
deriving DecidableEq

/-- A sequence of host values (the payload of `PyObj.tuple` / `PyObj.list`). -/
inductive PyObjList where
  | nil
  | cons (hd : PyObj) (tl : PyObjList)
deriving DecidableEq

end

/-- Length of a host sequence. -/
def PyObjList.length : PyObjList → Nat
  | .nil => 0
  | .cons _ tl => 1 + tl.length

/-- A stand-in for the host hash `py::hash`.  The claims never depend on the
values this returns, only on which data the node hash feeds into the
combiner, so container hashing is abbreviated to the length. -/
def pyHash : PyObj → Int
  | .none => 0
  | .bool b => if b then 1 else 2
  | .int i => 3 + 11 * i
  | .str s => 5 + (s.foldl (fun h c => h * 31 + c.toNat) 7 : Nat)
  | .tuple xs => 17 + (xs.length : Int)
  | .list xs => 19 + (xs.length : Int)
  | .pytype id => 23 + (id : Int)

/-- A custom-type registration, after `PyTreeTypeRegistry::Registration`
(`include/registry.h`).  Modelled from the spec (§4.1): the registry file is
not under `src/`.  `rid` stands for the address of the C++ registration
object, so equality of `Registration` values models pointer identity. -/
structure Registration where
  rid : Nat
  type : PyObj
deriving DecidableEq

/-- A registry lookup function, standing for
`PyTreeTypeRegistry::Lookup<NoneIsLeaf>(type, namespace)`; the `Bool`
argument is the `NoneIsLeaf` template parameter.  Modelled from the spec
(§4.1): the registry implementation is not under `src/`. -/
def RegistryLookup : Type := PyObj → String → Bool → Option Registration

/-- One node of a treespec, after `PyTreeSpec::Node` (`include/treespec.h`).
`node_data` and `node_entries` are null (`Option.none`) when the C++
`py::object` holds no reference. -/
structure Node where
  kind : PyTreeKind := .Leaf
  arity : Int := 0
  node_data : Option PyObj := Option.none
  node_entries : Option PyObj := Option.none
  custom : Option Registration := Option.none
  num_leaves : Int := 0
  num_nodes : Int := 0
deriving DecidableEq

/-- A treespec, after `PyTreeSpec` (`include/treespec.h`): the post-order
node traversal, the `none_is_leaf` mode and the registry namespace. -/
structure PyTreeSpec where
  m_traversal : List Node
  m_none_is_leaf : Bool := false
  m_namespace : String := ""
deriving DecidableEq

/-- `PyTreeSpec::num_leaves` (`treespec.cpp:28`): the root's leaf count;
`EXPECT_FALSE` raises on an empty traversal. -/
def PyTreeSpec.num_leaves (self : PyTreeSpec) : Except String Int :=
  match self.m_traversal.getLast? with
  | Option.none => .error "The tree node traversal is empty."
  | some root => .ok root.num_leaves

/-- `PyTreeSpec::num_nodes` (`treespec.cpp:33`): the traversal length. -/
def PyTreeSpec.num_nodes (self : PyTreeSpec) : Int :=
  self.m_traversal.length

/-- `PyTreeSpec::num_children` (`treespec.cpp:35`): the root's arity. -/
def PyTreeSpec.num_children (self : PyTreeSpec) : Except String Int :=
  match self.m_traversal.getLast? with
  | Option.none => .error "The tree node traversal is empty."
  | some root => .ok root.arity

/-- `a->node_data && a->node_data.not_equal(b->node_data)`
(`treespec.cpp:102`): host-value inequality, tested only when `a`'s data is
non-null (the nullity check has already ensured `b`'s is too). -/
def nodeDataNotEqual : Option PyObj → Option PyObj → Bool
  | some x, some y => decide (x ≠ y)
  | _, _ => false

/-- The per-node loop of `PyTreeSpec::operator==` (`treespec.cpp:93-107`):
compare `kind`, `arity`, `node_data` nullity, `custom` pointer identity,
then `node_data` by host-value equality; the trailing `EXPECT_EQ` sanity
assertions on the counts are modelled as errors. -/
def nodesEq : List Node → List Node → Except String Bool
  | a :: as, b :: bs =>
    if a.kind ≠ b.kind ∨ a.arity ≠ b.arity ∨
        a.node_data.isNone ≠ b.node_data.isNone ∨ a.custom ≠ b.custom then
      .ok false
    else if nodeDataNotEqual a.node_data b.node_data then
      .ok false
    else if a.num_leaves ≠ b.num_leaves then
      .error "EXPECT_EQ(a->num_leaves, b->num_leaves) failed."
    else if a.num_nodes ≠ b.num_nodes then
      .error "EXPECT_EQ(a->num_nodes, b->num_nodes) failed."
    else
      nodesEq as bs
  | _, _ => .ok true

/-- `PyTreeSpec::operator==` (`treespec.cpp:83-109`): sizes and
`none_is_leaf` first, then the namespaces (unequal only when both are
non-empty and differ), then the node-by-node loop. -/
def PyTreeSpec.opEq (self other : PyTreeSpec) : Except String Bool :=
  if self.m_traversal.length ≠ other.m_traversal.length ∨
      self.m_none_is_leaf ≠ other.m_none_is_leaf then
    .ok false
  else if ¬self.m_namespace.isEmpty ∧ ¬other.m_namespace.isEmpty ∧
      self.m_namespace ≠ other.m_namespace then
    .ok false
  else
    nodesEq self.m_traversal other.m_traversal

/-- `PyTreeSpec::Compose` (`treespec.cpp:113-157`): check `none_is_leaf` and
the namespaces, pick the result namespace, then replace every `Leaf` node of
`self` by a copy of `inner`'s traversal and update the counts of every other
node; finally the two `EXPECT_EQ` root-count assertions. -/
def PyTreeSpec.Compose (self inner_treespec : PyTreeSpec) :
    Except String PyTreeSpec :=
  if self.m_none_is_leaf ≠ inner_treespec.m_none_is_leaf then
    .error "PyTreeSpecs must have the same none_is_leaf value."
  else if ¬self.m_namespace.isEmpty ∧ ¬inner_treespec.m_namespace.isEmpty ∧
      self.m_namespace ≠ inner_treespec.m_namespace then
    .error "PyTreeSpecs must have the same namespace."
  else
    let out_namespace :=
      if inner_treespec.m_namespace.isEmpty then self.m_namespace
      else inner_treespec.m_namespace
    match self.m_traversal.getLast? with
    | Option.none => .error "The tree node traversal is empty."
    | some outer_root =>
      match inner_treespec.m_traversal.getLast? with
      | Option.none => .error "The tree node traversal is empty."
      | some inner_root =>
        let num_inner_leaves := inner_root.num_leaves
        let num_inner_nodes : Int := inner_treespec.m_traversal.length
        let new_traversal := self.m_traversal.flatMap fun node =>
          if node.kind = .Leaf then inner_treespec.m_traversal
          else [{ node with
                  num_leaves := node.num_leaves * num_inner_leaves,
                  num_nodes := (node.num_nodes - node.num_leaves) +
                    node.num_leaves * num_inner_nodes }]
        match new_traversal.getLast? with
        | Option.none => .error "Internal error."
        | some root =>
          if root.num_leaves ≠ outer_root.num_leaves * num_inner_leaves then
            .error "Number of composed tree leaves mismatch."
          else if root.num_nodes ≠
              ((self.m_traversal.length : Int) - outer_root.num_leaves) +
                outer_root.num_leaves * num_inner_nodes then
            .error "Number of composed tree nodes mismatch."
          else
            .ok { m_traversal := new_traversal,
                  m_none_is_leaf := self.m_none_is_leaf,
                  m_namespace := out_namespace }

/-- The first loop of `PyTreeSpec::Tuple` (`treespec.cpp:161-177`): check
every child's `none_is_leaf` flag and fold the registry namespace (the first
non-empty namespace wins; a later different non-empty namespace fails). -/
def tupleCheckLoop (none_is_leaf : Bool) :
    List PyTreeSpec → String → Except String String
  | [], registry_namespace => .ok registry_namespace
  | treespec :: rest, registry_namespace =>
    if treespec.m_none_is_leaf ≠ none_is_leaf then
      .error "Expected treespecs with the same none_is_leaf value."
    else if ¬treespec.m_namespace.isEmpty then
      if registry_namespace.isEmpty then
        tupleCheckLoop none_is_leaf rest treespec.m_namespace
      else if registry_namespace ≠ treespec.m_namespace then
        .error "Expected treespecs with the same namespace."
      else
        tupleCheckLoop none_is_leaf rest registry_namespace
    else
      tupleCheckLoop none_is_leaf rest registry_namespace

/-- The second loop of `PyTreeSpec::Tuple` (`treespec.cpp:180-184`):
concatenate the children's traversals and sum their root leaf counts
(`num_leaves()` raises on an empty child traversal). -/
def tupleSumLoop : List PyTreeSpec → List Node → Int →
    Except String (List Node × Int)
  | [], traversal, num_leaves => .ok (traversal, num_leaves)
  | treespec :: rest, traversal, num_leaves =>
    match treespec.m_traversal.getLast? with
    | Option.none => .error "The tree node traversal is empty."
    | some root =>
      tupleSumLoop rest (traversal ++ treespec.m_traversal)
        (num_leaves + root.num_leaves)

/-- `PyTreeSpec::Tuple` (`treespec.cpp:159-194`): validate the children,
concatenate their traversals and append a `Tuple` root whose `arity` is the
number of children, whose `num_leaves` is the sum of the children's root leaf
counts and whose `num_nodes` is the concatenated length plus one. -/
def PyTreeSpec.Tuple (treespecs : List PyTreeSpec) (none_is_leaf : Bool) :
    Except String PyTreeSpec := do
  let registry_namespace ← tupleCheckLoop none_is_leaf treespecs ""
  let (traversal, num_leaves) ← tupleSumLoop treespecs [] 0
  .ok { m_traversal := traversal ++
          [{ kind := .Tuple,
             arity := (treespecs.length : Int),
             num_leaves := num_leaves,
             num_nodes := (traversal.length : Int) + 1 }],
        m_none_is_leaf := none_is_leaf,
        m_namespace := registry_namespace }

/-- `PyTreeSpec::Leaf` (`treespec.cpp:196-206`): a single `Leaf` node. -/
def PyTreeSpec.Leaf (none_is_leaf : Bool) : PyTreeSpec :=
  { m_traversal := [{ kind := .Leaf, arity := 0, num_leaves := 1,
                      num_nodes := 1 }],
    m_none_is_leaf := none_is_leaf }

/-- `PyTreeSpec::None` (`treespec.cpp:208-221`): a `Leaf` when
`none_is_leaf`, otherwise a single `None` node with zero leaves. -/
def PyTreeSpec.None (none_is_leaf : Bool) : PyTreeSpec :=
  if none_is_leaf then PyTreeSpec.Leaf none_is_leaf
  else
    { m_traversal := [{ kind := .None, arity := 0, num_leaves := 0,
                        num_nodes := 1 }],
      m_none_is_leaf := none_is_leaf }

/-- The loop of `PyTreeSpec::Children` (`treespec.cpp:231-241`): walk
backward from `pos`, peeling one child subtree of `node.num_nodes` nodes per
iteration; `m_traversal.at(pos - 1)` raises when out of range, and the
`EXPECT_GE` guard raises when the walk would run off the start. -/
def childrenLoop (self : PyTreeSpec) :
    Nat → Int → List PyTreeSpec → Except String (List PyTreeSpec)
  | 0, pos, acc =>
    if pos ≠ 0 then .error "`pos != 0` at end of PyTreeSpec::Children()."
    else .ok acc
  | i + 1, pos, acc =>
    match self.m_traversal.get? (pos - 1).toNat with
    | Option.none => .error "vector::at out of range."
    | some node =>
      if pos - 1 < 0 then .error "vector::at out of range."
      else if pos < node.num_nodes then
        .error "PyTreeSpec::Children() walked off start of array."
      else
        childrenLoop self i (pos - node.num_nodes)
          ({ m_traversal := (self.m_traversal.take pos.toNat).drop
               (pos - node.num_nodes).toNat,
             m_none_is_leaf := self.m_none_is_leaf,
             m_namespace := self.m_namespace } :: acc)

/-- `PyTreeSpec::Children` (`treespec.cpp:223-244`): empty traversal gives no
children; otherwise peel `root.arity` subtrees from the back (the loop runs
`i = arity-1 … 0`, so the accumulator receives the children in order). -/
def PyTreeSpec.Children (self : PyTreeSpec) :
    Except String (List PyTreeSpec) :=
  match self.m_traversal.getLast? with
  | Option.none => .ok []
  | some root =>
    if root.arity < 0 then .error "vector::resize with negative size."
    else
      childrenLoop self root.arity.toNat
        ((self.m_traversal.length : Int) - 1) []

/-- The key-folding step of the node hash (`treespec.h:178-180`):
`data_hash = absl::HashOf(data_hash, py::hash(key))` for each key in order.
`absl::HashOf` on two integers is modelled by an unspecified fixed mixing
function; no claim depends on its values. -/
def hashKeysFold : PyObjList → Int → Int
  | .nil, data_hash => data_hash
  | .cons key rest, data_hash =>
    hashKeysFold rest (data_hash * 1000003 + pyHash key)

/-- The kind-dependent `data_hash` of `AbslHashValue(H, const Node&)`
(`treespec.h:142-185`): excluded for `Custom`; the host hash of `node_data`
(or of `None` when null) for the simple kinds; for the mapping kinds the
ordered fold over the keys, seeded for `DefaultDict` with the hash of the
`default_factory`.  The `EXPECT_EQ` guards (aux-tuple size, key count) and
the C-API list/tuple accesses on wrongly-typed data are errors. -/
def dataHash (n : Node) : Except String Int :=
  match n.kind with
  | .Custom => .ok 0
  | .Leaf | .None | .Tuple | .List | .NamedTuple | .Deque | .StructSequence =>
    .ok (pyHash (n.node_data.getD PyObj.none))
  | .Dict | .OrderedDict =>
    match n.node_data with
    | some (.list keys) =>
      if (keys.length : Int) ≠ n.arity then
        .error "Number of keys and entries does not match."
      else
        .ok (hashKeysFold keys 0)
    | _ => .error "GET_SIZE<py::list> on non-list node_data."
  | .DefaultDict =>
    match n.node_data with
    | some (.tuple (.cons default_factory (.cons keysObj .nil))) =>
      match keysObj with
      | .list keys =>
        if (keys.length : Int) ≠ n.arity then
          .error "Number of keys and entries does not match."
        else
          .ok (hashKeysFold keys (pyHash default_factory))
      | _ => .error "GET_SIZE<py::list> on non-list keys."
    | some (.tuple _) => .error "Number of auxiliary data mismatch."
    | _ => .error "GET_SIZE<py::tuple> on non-tuple node_data."

/-- The fingerprint a single node feeds into the absl hash combiner
(`treespec.h:187-188`): `kind`, `arity`, `custom`, `num_leaves`,
`num_nodes` and the kind-dependent `data_hash`. -/
def nodeHashData (n : Node) :
    Except String (PyTreeKind × Int × Option Registration × Int × Int × Int) :=
  (dataHash n).map fun d =>
    (n.kind, n.arity, n.custom, n.num_leaves, n.num_nodes, d)

/-- The node fingerprints of a traversal, in order. -/
def nodeHashList : List Node →
    Except String (List (PyTreeKind × Int × Option Registration × Int × Int × Int))
  | [] => .ok []
  | n :: rest => do
    let h ← nodeHashData n
    let t ← nodeHashList rest
    .ok (h :: t)

/-- The fingerprint of `AbslHashValue(H, const PyTreeSpec&)`
(`treespec.h:192-196`): the node fingerprints, `none_is_leaf` and the
namespace.  Two treespec hashes are equal exactly when these fingerprints
are equal (hash collisions are abstracted away). -/
def specHashData (t : PyTreeSpec) :
    Except String
      (List (PyTreeKind × Int × Option Registration × Int × Int × Int) ×
        Bool × String) :=
  (nodeHashList t.m_traversal).map fun l =>
    (l, t.m_none_is_leaf, t.m_namespace)

/-- The ordinal stored for a kind by the codec
(`static_cast<ssize_t>(node.kind)`, `treespec.cpp:534`).  Modelled from the
spec: the `PyTreeKind` enum with its ordinals lives in `include/registry.h`,
which is not under `src/`; no claim depends on the numbering, only on the
cast being inverted by `ordKind` below. -/
def kindOrd : PyTreeKind → Int
  | .Custom => 0
  | .Leaf => 1
  | .None => 2
  | .Tuple => 3
  | .List => 4
  | .Dict => 5
  | .NamedTuple => 6
  | .OrderedDict => 7
  | .DefaultDict => 8
  | .Deque => 9
  | .StructSequence => 10

/-- The inverse cast `static_cast<PyTreeKind>(t[0].cast<ssize_t>())`
(`treespec.cpp:564`); an out-of-range ordinal reaches the
`INTERNAL_ERROR()` default of the decoder's switch, modelled as `none`. -/
def ordKind (i : Int) : Option PyTreeKind :=
  if i = 0 then some .Custom
  else if i = 1 then some .Leaf
  else if i = 2 then some .None
  else if i = 3 then some .Tuple
  else if i = 4 then some .List
  else if i = 5 then some .Dict
  else if i = 6 then some .NamedTuple
  else if i = 7 then some .OrderedDict
  else if i = 8 then some .DefaultDict
  else if i = 9 then some .Deque
  else if i = 10 then some .StructSequence
  else Option.none

/-- One 7-tuple of the picklable form (§4.11): `(kind_ordinal, arity,
node_data_or_none, node_entries_or_none, custom_type_or_none, num_leaves,
num_nodes)`. -/
structure PickleNode where
  kind_ord : Int
  arity : Int
  node_data : PyObj
  node_entries : PyObj
  custom_type : PyObj
  num_leaves : Int
  num_nodes : Int
deriving DecidableEq

/-- The picklable 3-tuple `(nodes, none_is_leaf, namespace)` (§4.11).  The
raw host-tuple shape checks of the decoder (outer arity 3, node arity 7,
`cast<bool>` / `cast<std::string>`) are absorbed by this typed form. -/
structure Picklable where
  nodes : List PickleNode
  none_is_leaf : Bool
  ns : String
deriving DecidableEq

/-- The 7-tuple `PyTreeSpec::ToPicklable` builds for one node
(`treespec.cpp:532-540`): null `node_data` / `node_entries` collapse to the
host `None` object and a `Custom` node contributes its registration's type. -/
def toPicklableNode (node : Node) : PickleNode :=
  { kind_ord := kindOrd node.kind,
    arity := node.arity,
    node_data := node.node_data.getD PyObj.none,
    node_entries := node.node_entries.getD PyObj.none,
    custom_type := match node.custom with
      | some registration => registration.type
      | Option.none => PyObj.none,
    num_leaves := node.num_leaves,
    num_nodes := node.num_nodes }

/-- `PyTreeSpec::ToPicklable` (`treespec.cpp:528-543`). -/
def PyTreeSpec.ToPicklable (self : PyTreeSpec) : Picklable :=
  { nodes := self.m_traversal.map toPicklableNode,
    none_is_leaf := self.m_none_is_leaf,
    ns := self.m_namespace }

/-- The per-node body of `PyTreeSpec::FromPicklableImpl`
(`treespec.cpp:558-619`): decode the kind ordinal, validate `node_data`
against the kind (`cast<py::list>` / `cast<py::type>` raise on a wrongly
typed object), and for `Custom` nodes decode the optional entries tuple and
re-resolve `custom_type` through the registry in the stored namespace; any
other non-null entries or custom type is malformed.  The stored counts are
copied without validation. -/
def fromPicklableNode (lookup : RegistryLookup) (none_is_leaf : Bool)
    (registry_namespace : String) (t : PickleNode) : Except String Node := do
  let kind ← match ordKind t.kind_ord with
    | some k => Except.ok k
    | Option.none => Except.error "Internal error."
  let node_data : Option PyObj ← match kind with
    | .Leaf | .None | .Tuple | .List =>
      if t.node_data ≠ PyObj.none then
        Except.error "Malformed pickled PyTreeSpec."
      else
        Except.ok Option.none
    | .Dict | .OrderedDict =>
      match t.node_data with
      | .list _ => Except.ok (some t.node_data)
      | _ => Except.error "cast<py::list> failed."
    | .NamedTuple | .StructSequence =>
      match t.node_data with
      | .pytype _ => Except.ok (some t.node_data)
      | _ => Except.error "cast<py::type> failed."
    | .DefaultDict | .Deque | .Custom =>
      Except.ok (some t.node_data)
  if kind = .Custom then
    let node_entries : Option PyObj ←
      if t.node_entries = PyObj.none then
        Except.ok Option.none
      else
        match t.node_entries with
        | .tuple _ => Except.ok (some t.node_entries)
        | _ => Except.error "cast<py::tuple> failed."
    let custom : Option Registration :=
      if t.custom_type = PyObj.none then Option.none
      else lookup t.custom_type registry_namespace none_is_leaf
    match custom with
    | Option.none => Except.error "Unknown custom type in pickled PyTreeSpec."
    | some registration =>
      Except.ok { kind := kind, arity := t.arity, node_data := node_data,
                  node_entries := node_entries,
                  custom := some registration,
                  num_leaves := t.num_leaves, num_nodes := t.num_nodes }
  else
    if t.node_entries ≠ PyObj.none ∨ t.custom_type ≠ PyObj.none then
      Except.error "Malformed pickled PyTreeSpec."
    else
      Except.ok { kind := kind, arity := t.arity, node_data := node_data,
                  node_entries := Option.none, custom := Option.none,
                  num_leaves := t.num_leaves, num_nodes := t.num_nodes }

/-- The node loop of `PyTreeSpec::FromPicklableImpl` (`treespec.cpp:558`). -/
def fromPicklableNodes (lookup : RegistryLookup) (none_is_leaf : Bool)
    (registry_namespace : String) : List PickleNode → Except String (List Node)
  | [] => .ok []
  | t :: rest => do
    let node ← fromPicklableNode lookup none_is_leaf registry_namespace t
    let nodes ← fromPicklableNodes lookup none_is_leaf registry_namespace rest
    .ok (node :: nodes)

/-- `PyTreeSpec::FromPicklableImpl` / `FromPicklable`
(`treespec.cpp:547-627`): take `none_is_leaf` and the namespace from the
state, then decode each node 7-tuple in order.  `lookup` is the global
registry (§4.1), passed explicitly. -/
def PyTreeSpec.FromPicklable (lookup : RegistryLookup) (picklable : Picklable) :
    Except String PyTreeSpec := do
  let traversal ← fromPicklableNodes lookup picklable.none_is_leaf
    picklable.ns picklable.nodes
  .ok { m_traversal := traversal,
        m_none_is_leaf := picklable.none_is_leaf,
        m_namespace := picklable.ns }

/-- The number of `Leaf` nodes in a traversal, as an `Int` (the "total
leaves" of the spec's §3 invariant 3). -/
def leafCount (traversal : List Node) : Int :=
  (traversal.countP fun n => decide (n.kind = PyTreeKind.Leaf) : Nat)

/-- The per-node count consistency check of the spec's §3 invariant 4 and
§4.2 step 7: a `Leaf` counts `(1, 1)` with arity 0, a `None` node `(0, 1)`
with arity 0, and any other node must carry the sum of its children's leaf
counts and one plus the sum of their node counts. -/
def nodeCountOK (n : Node) (sumLeaves sumNodes : Int) : Bool :=
  match n.kind with
  | .Leaf => n.arity = 0 ∧ n.num_leaves = 1 ∧ n.num_nodes = 1
  | .None => n.arity = 0 ∧ n.num_leaves = 0 ∧ n.num_nodes = 1
  | _ => n.num_leaves = sumLeaves ∧ n.num_nodes = 1 + sumNodes

/-- A stack machine that replays a post-order traversal front to back and
verifies the count invariants of the spec's §3: each node pops the
`(num_leaves, num_nodes)` pairs of its `arity` children off the stack,
must satisfy `nodeCountOK` against their sums, and pushes its own pair. -/
def countsRun : List Node → List (Int × Int) → Option (List (Int × Int))
  | [], stack => some stack
  | n :: rest, stack =>
    if n.arity < 0 then Option.none
    else if n.arity.toNat ≤ stack.length then
      if nodeCountOK n ((stack.take n.arity.toNat).map Prod.fst).sum
          ((stack.take n.arity.toNat).map Prod.snd).sum then
        countsRun rest
          ((n.num_leaves, n.num_nodes) :: stack.drop n.arity.toNat)
      else Option.none
    else Option.none

/-- §3 invariants 1-4 for a treespec: the traversal is non-empty and replays
to a single well-counted subtree. -/
def wfCounts (s : PyTreeSpec) : Bool :=
  match countsRun s.m_traversal [] with
  | some [_] => true
  | _ => false

/-- Whether an optional host object is a list. -/
def isListData : Option PyObj → Bool
  | some (.list _) => true
  | _ => false

/-- Whether an optional host object is a type object. -/
def isPytypeData : Option PyObj → Bool
  | some (.pytype _) => true
  | _ => false

/-- Whether a `Custom` node's registration is present and registers a host
type object (spec §4.1: `register(type, …)` takes a type). -/
def customShapeOK : Option Registration → Bool
  | some registration =>
    match registration.type with
    | .pytype _ => true
    | _ => false
  | Option.none => false

/-- Whether optional path entries are absent or a host tuple. -/
def entriesShapeOK : Option PyObj → Bool
  | Option.none => true
  | some (.tuple _) => true
  | _ => false

/-- The kind-dependent shape invariants of a node (spec §3, node-kinds table
and invariants 5-7): which kinds carry which `node_data`, `node_entries`
only on `Custom` nodes (as a tuple), and `custom` non-null exactly on
`Custom` nodes. -/
def nodeShapeOK (n : Node) : Bool :=
  match n.kind with
  | .Leaf | .None | .Tuple | .List =>
    n.node_data = Option.none ∧ n.node_entries = Option.none ∧
      n.custom = Option.none
  | .Dict | .OrderedDict =>
    isListData n.node_data ∧ n.node_entries = Option.none ∧
      n.custom = Option.none
  | .NamedTuple | .StructSequence =>
    isPytypeData n.node_data ∧ n.node_entries = Option.none ∧
      n.custom = Option.none
  | .DefaultDict | .Deque =>
    n.node_data.isSome ∧ n.node_entries = Option.none ∧
      n.custom = Option.none
  | .Custom =>
    n.node_data.isSome ∧ entriesShapeOK n.node_entries ∧
      customShapeOK n.custom

/-- Shape invariants for every node of a treespec. -/
def wfShape (s : PyTreeSpec) : Bool :=
  s.m_traversal.all nodeShapeOK

/-- Registry consistency of a treespec (spec §6.3: "stable … provided the
registry is populated identically"): looking the type of one `Custom`
node's registration up in the spec's namespace and mode yields that very
registration. -/
def nodeRegConsistent (lookup : RegistryLookup) (registry_namespace : String)
    (none_is_leaf : Bool) (n : Node) : Bool :=
  if n.kind = PyTreeKind.Custom then
    match n.custom with
    | some registration =>
      decide (lookup registration.type registry_namespace none_is_leaf =
        some registration)
    | Option.none => false
  else true

/-- Registry consistency for every node of a treespec. -/
def regConsistent (lookup : RegistryLookup) (s : PyTreeSpec) : Bool :=
  s.m_traversal.all
    (nodeRegConsistent lookup s.m_namespace s.m_none_is_leaf)

instance {ε α : Type _} [DecidableEq ε] [DecidableEq α] :
    DecidableEq (Except ε α) := fun a b =>
  match a, b with
  | .error e, .error f =>
    if h : e = f then isTrue (by rw [h])
    else isFalse fun c => h (by injection c)
  | .ok x, .ok y =>
    if h : x = y then isTrue (by rw [h])
    else isFalse fun c => h (by injection c)
  | .error _, .ok _ => isFalse fun c => Except.noConfusion c
  | .ok _, .error _ => isFalse fun c => Except.noConfusion c

instance :
    DecidableEq (List (PyTreeKind × Int × Option Registration × Int × Int × Int)) :=
  List.hasDecEq

/-- The per-position agreement of `operator==` as the spec words it (§4.8 /
claim C5): same `kind`, same `arity`, `custom` pointer identity, and
`node_data` both absent or both present and equal by host-value equality. -/
def nodeAgree (a b : Node) : Prop :=
  a.kind = b.kind ∧ a.arity = b.arity ∧ a.custom = b.custom ∧
  ((a.node_data = Option.none ∧ b.node_data = Option.none) ∨
   (a.node_data ≠ Option.none ∧ b.node_data ≠ Option.none ∧
    a.node_data = b.node_data))

instance (a b : Node) : Decidable (nodeAgree a b) := by
  unfold nodeAgree
  infer_instance

/-- `nodeAgree` lifted to optional nodes (for positional indexing). -/
def optNodeAgree : Option Node → Option Node → Prop
  | some a, some b => nodeAgree a b
  | Option.none, Option.none => True
  | _, _ => False

instance (x y : Option Node) : Decidable (optNodeAgree x y) := by
  cases x <;> cases y <;> simp only [optNodeAgree] <;> infer_instance

/-- Equality of treespecs as the spec words it (§4.8 / claim C5): same
traversal length, same `none_is_leaf`, namespaces equal or at least one
empty, and positionwise `nodeAgree`. -/
def specEqClaim (a b : PyTreeSpec) : Prop :=
  a.m_traversal.length = b.m_traversal.length ∧
  a.m_none_is_leaf = b.m_none_is_leaf ∧
  (a.m_namespace = b.m_namespace ∨ a.m_namespace = "" ∨
    b.m_namespace = "") ∧
  ∀ i, i < a.m_traversal.length →
    optNodeAgree (a.m_traversal.get? i) (b.m_traversal.get? i)

/-- Two treespecs that agree everywhere except possibly in the `node_data`
of `Custom` nodes (claim C9). -/
def sameExceptCustomData (a b : PyTreeSpec) : Prop :=
  a.m_none_is_leaf = b.m_none_is_leaf ∧ a.m_namespace = b.m_namespace ∧
  List.Forall₂ (fun x y => x.kind = y.kind ∧ x.arity = y.arity ∧
      x.node_entries = y.node_entries ∧ x.custom = y.custom ∧
      x.num_leaves = y.num_leaves ∧ x.num_nodes = y.num_nodes ∧
      (x.kind ≠ .Custom → x.node_data = y.node_data))
    a.m_traversal b.m_traversal

/-- Two treespecs that agree everywhere except possibly in the
`node_entries` of some nodes (claim C10). -/
def sameExceptEntries (a b : PyTreeSpec) : Prop :=
  a.m_none_is_leaf = b.m_none_is_leaf ∧ a.m_namespace = b.m_namespace ∧
  List.Forall₂ (fun x y => x.kind = y.kind ∧ x.arity = y.arity ∧
      x.node_data = y.node_data ∧ x.custom = y.custom ∧
      x.num_leaves = y.num_leaves ∧ x.num_nodes = y.num_nodes)
    a.m_traversal b.m_traversal

instance (a b : PyTreeSpec) : Decidable (sameExceptCustomData a b) := by
  unfold sameExceptCustomData
  infer_instance

instance (a b : PyTreeSpec) : Decidable (sameExceptEntries a b) := by
  unfold sameExceptEntries
  infer_instance

/-- The count invariant of the spec's §3 (invariant 3): the root's
`num_leaves` is the total number of `Leaf` nodes and its `num_nodes` is the
traversal length. -/
def countInvariant (s : PyTreeSpec) : Prop :=
  ∃ root, s.m_traversal.getLast? = some root ∧
    root.num_leaves = leafCount s.m_traversal ∧
    root.num_nodes = (s.m_traversal.length : Int)

/-- A single well-counted `Leaf` node (concrete test fixture). -/
def leafNodeW : Node :=
  { kind := .Leaf, arity := 0, num_leaves := 1, num_nodes := 1 }

/-- A one-leaf treespec in the default namespace (fixture). -/
def specLeafW : PyTreeSpec := { m_traversal := [leafNodeW] }

/-- A one-leaf treespec in namespace `"ns"` (fixture). -/
def specLeafNsW : PyTreeSpec :=
  { m_traversal := [leafNodeW], m_namespace := "ns" }

/-- The treespec of `[0, 0]`: two leaves under a `List` root (fixture). -/
def specListW : PyTreeSpec :=
  { m_traversal := [leafNodeW, leafNodeW,
      { kind := .List, arity := 2, num_leaves := 2, num_nodes := 3 }] }

/-- The treespec of `(0, 0)`: two leaves under a `Tuple` root (fixture). -/
def specTupleW : PyTreeSpec :=
  { m_traversal := [leafNodeW, leafNodeW,
      { kind := .Tuple, arity := 2, num_leaves := 2, num_nodes := 3 }] }

/-- A registration for the host type tagged 7 (fixture). -/
def regW : Registration := { rid := 4, type := .pytype 7 }

/-- A registry with exactly `regW` in every namespace (fixture). -/
def lookupW : RegistryLookup := fun t _ _ =>
  if t = PyObj.pytype 7 then some regW else Option.none

/-- A registry with no registrations (fixture). -/
def emptyLookup : RegistryLookup := fun _ _ _ => Option.none

/-- A treespec with a `Custom` root over one leaf, carrying auxiliary data,
path entries and `regW`, in namespace `"ns"` (fixture). -/
def specCustomW : PyTreeSpec :=
  { m_traversal := [leafNodeW,
      { kind := .Custom, arity := 1, node_data := some (.int 3),
        node_entries := some (.tuple (.cons (.int 0) .nil)),
        custom := some regW, num_leaves := 1, num_nodes := 2 }],
    m_namespace := "ns" }

/-- `specCustomW` with different auxiliary data on the `Custom` node
(fixture for claim C9). -/
def specCustomW2 : PyTreeSpec :=
  { m_traversal := [leafNodeW,
      { kind := .Custom, arity := 1, node_data := some (.int 4),
        node_entries := some (.tuple (.cons (.int 0) .nil)),
        custom := some regW, num_leaves := 1, num_nodes := 2 }],
    m_namespace := "ns" }

/-- A picklable form whose stored counts are wrong: a single `Leaf` node
claiming 5 leaves and 7 nodes (fixture for claim C4). -/
def badPickleW : Picklable :=
  { nodes := [{ kind_ord := 1, arity := 0, node_data := .none,
                node_entries := .none, custom_type := .none,
                num_leaves := 5, num_nodes := 7 }],
    none_is_leaf := false, ns := "" }

/-- The treespec `FromPicklable` builds from `badPickleW`: a single `Leaf`
node carrying the bogus stored counts (fixture for claim C4). -/
def badSpecW : PyTreeSpec :=
  { m_traversal := [{ kind := .Leaf, arity := 0, num_leaves := 5,
                      num_nodes := 7 }] }

/-- A one-leaf treespec whose node carries path entries (fixture for
claim C10). -/
def specEntriesW : PyTreeSpec :=
  { m_traversal := [{ kind := .Leaf, arity := 0,
                      node_entries := some (.tuple .nil), num_leaves := 1,
                      num_nodes := 1 }] }

/-- The value of `PyTreeSpec.Tuple [specLeafW, specListW] false` (fixture:
the concrete output of a `Tuple` construction). -/
def tupleOutW : PyTreeSpec :=
  { m_traversal :=
      [{ kind := .Leaf, arity := 0, num_leaves := 1, num_nodes := 1 },
       { kind := .Leaf, arity := 0, num_leaves := 1, num_nodes := 1 },
       { kind := .Leaf, arity := 0, num_leaves := 1, num_nodes := 1 },
       { kind := .List, arity := 2, num_leaves := 2, num_nodes := 3 },
       { kind := .Tuple, arity := 2, num_leaves := 3, num_nodes := 5 }] }

/-- The value of `specListW.Compose specTupleW` (fixture: the concrete
output of a `Compose`). -/
def composeOutW : PyTreeSpec :=
  { m_traversal :=
      [{ kind := .Leaf, arity := 0, num_leaves := 1, num_nodes := 1 },
       { kind := .Leaf, arity := 0, num_leaves := 1, num_nodes := 1 },
       { kind := .Tuple, arity := 2, num_leaves := 2, num_nodes := 3 },
       { kind := .Leaf, arity := 0, num_leaves := 1, num_nodes := 1 },
       { kind := .Leaf, arity := 0, num_leaves := 1, num_nodes := 1 },
       { kind := .Tuple, arity := 2, num_leaves := 2, num_nodes := 3 },
       { kind := .List, arity := 2, num_leaves := 4, num_nodes := 7 }] }

/-- The `(num_leaves, num_nodes)` pair of the last node of a traversal
segment (the pair `countsRun` pushes for it). -/
def blockCounts (b : List Node) : Int × Int :=
  match b.getLast? with
  | some r => (r.num_leaves, r.num_nodes)
  | Option.none => (0, 0)

/-- A list of traversal segments, each a non-empty well-counted subtree. -/
def GoodBlocks (bl : List (List Node)) : Prop :=
  ∀ b ∈ bl, b ≠ [] ∧ countsRun b [] = some [blockCounts b]

theorem countsRun_append (l₁ l₂ : List Node) (s : List (Int × Int)) :
    countsRun (l₁ ++ l₂) s = (countsRun l₁ s).bind (countsRun l₂) := by
  induction l₁ generalizing s with
  | nil => simp [countsRun]
  | cons n rest ih =>
    simp only [List.cons_append, countsRun]
    split
    · simp
    · split
      · split
        · exact ih _
        · simp
      · simp

theorem countsRun_frame (l : List Node) (s s' ext : List (Int × Int))
    (h : countsRun l s = some s') :
    countsRun l (s ++ ext) = some (s' ++ ext) := by
  induction l generalizing s s' with
  | nil =>
    simp only [countsRun, Option.some.injEq] at h
    simp [countsRun, h]
  | cons n rest ih =>
    simp only [countsRun] at h ⊢
    split at h
    · exact absurd h (by simp)
    · rename_i hneg
      split at h
      · rename_i hlen
        have hlen' : n.arity.toNat ≤ (s ++ ext).length := by
          simp only [List.length_append]; omega
        rw [if_neg hneg, if_pos hlen']
        rw [List.take_append_of_le_length hlen] at *
        split at h
        · rename_i hok
          rw [if_pos hok]
          rw [List.drop_append_of_le_length hlen]
          exact ih _ _ h
        · exact absurd h (by simp)
      · exact absurd h (by simp)


theorem leafCount_cons (n : Node) (rest : List Node) :
    leafCount (n :: rest) =
      leafCount rest + (if n.kind = .Leaf then 1 else 0) := by
  simp only [leafCount, List.countP_cons]
  by_cases h : n.kind = .Leaf <;> simp [h]


theorem nodeCountOK_spec (n : Node) (sl sn : Int)
    (h : nodeCountOK n sl sn = true) :
    (n.kind = .Leaf → n.arity = 0 ∧ n.num_leaves = 1 ∧ n.num_nodes = 1) ∧
    (n.kind = .None → n.arity = 0 ∧ n.num_leaves = 0 ∧ n.num_nodes = 1) ∧
    (n.kind ≠ .Leaf → n.kind ≠ .None →
      n.num_leaves = sl ∧ n.num_nodes = 1 + sn) := by
  cases hk : n.kind <;> simp_all [nodeCountOK]

theorem countsRun_sums (l : List Node) (s s' : List (Int × Int))
    (h : countsRun l s = some s') :
    (s'.map Prod.fst).sum = ((s.map Prod.fst).sum + leafCount l) ∧
    (s'.map Prod.snd).sum = ((s.map Prod.snd).sum + l.length) := by
  induction l generalizing s with
  | nil =>
    simp only [countsRun, Option.some.injEq] at h
    subst h
    simp [leafCount]
  | cons n rest ih =>
    simp only [countsRun] at h
    split at h
    · exact absurd h (by simp)
    split at h
    case isFalse => exact absurd h (by simp)
    split at h
    case isFalse => exact absurd h (by simp)
    rename_i hneg hlen hok
    obtain ⟨ih1, ih2⟩ := ih _ h
    simp only [List.map_cons, List.sum_cons] at ih1 ih2
    have htot1 : ((s.take n.arity.toNat).map Prod.fst).sum +
        ((s.drop n.arity.toNat).map Prod.fst).sum =
        (s.map Prod.fst).sum := by
      rw [← List.sum_append, ← List.map_append, List.take_append_drop]
    have htot2 : ((s.take n.arity.toNat).map Prod.snd).sum +
        ((s.drop n.arity.toNat).map Prod.snd).sum =
        (s.map Prod.snd).sum := by
      rw [← List.sum_append, ← List.map_append, List.take_append_drop]
    rw [leafCount_cons]
    obtain ⟨hleaf, hnone, hint⟩ := nodeCountOK_spec n _ _ hok
    by_cases hkl : n.kind = .Leaf
    · obtain ⟨ha, hl, hn⟩ := hleaf hkl
      rw [ha] at ih1 ih2
      simp only [Int.toNat_zero, List.take_zero, List.map_nil, List.sum_nil,
        List.drop_zero] at ih1 ih2
      simp only [hkl, if_pos rfl, List.length_cons]
      constructor <;> push_cast <;> omega
    · by_cases hkn : n.kind = .None
      · obtain ⟨ha, hl, hn⟩ := hnone hkn
        rw [ha] at ih1 ih2
        simp only [Int.toNat_zero, List.take_zero, List.map_nil, List.sum_nil,
          List.drop_zero] at ih1 ih2
        simp only [if_neg hkl, List.length_cons]
        constructor <;> push_cast <;> omega
      · obtain ⟨hl, hn⟩ := hint hkl hkn
        simp only [if_neg hkl, List.length_cons]
        constructor <;> push_cast <;> omega


theorem countsRun_last (l : List Node) (s s' : List (Int × Int)) (r : Node)
    (hl : l.getLast? = some r) (h : countsRun l s = some s') :
    ∃ rest, s' = (r.num_leaves, r.num_nodes) :: rest := by
  induction l generalizing s with
  | nil => simp at hl
  | cons n t ih =>
    simp only [countsRun] at h
    split at h
    · exact absurd h (by simp)
    split at h
    case isFalse => exact absurd h (by simp)
    split at h
    case isFalse => exact absurd h (by simp)
    cases t with
    | nil =>
      simp only [List.getLast?_singleton, Option.some.injEq] at hl
      subst hl
      simp only [countsRun, Option.some.injEq] at h
      exact ⟨_, h.symm⟩
    | cons m t' =>
      rw [List.getLast?_cons_cons] at hl
      exact ih _ hl h

theorem countsRun_leaf_nodes (l : List Node) (s s' : List (Int × Int))
    (h : countsRun l s = some s') :
    ∀ n ∈ l, (n.kind = .Leaf →
      n.arity = 0 ∧ n.num_leaves = 1 ∧ n.num_nodes = 1) ∧
      (n.kind = .None → n.arity = 0 ∧ n.num_leaves = 0 ∧ n.num_nodes = 1) := by
  induction l generalizing s with
  | nil => simp
  | cons n t ih =>
    simp only [countsRun] at h
    split at h
    · exact absurd h (by simp)
    split at h
    case isFalse => exact absurd h (by simp)
    split at h
    case isFalse => exact absurd h (by simp)
    rename_i hneg hlen hok
    intro m hm
    obtain ⟨hleaf, hnone, _⟩ := nodeCountOK_spec n _ _ hok
    rcases List.mem_cons.mp hm with hm | hm
    · subst hm
      exact ⟨hleaf, hnone⟩
    · exact ih _ h m hm

theorem nodeCountOK_det (a b : Node) (sl sn : Int) (hk : a.kind = b.kind)
    (ha : nodeCountOK a sl sn = true) (hb : nodeCountOK b sl sn = true) :
    a.num_leaves = b.num_leaves ∧ a.num_nodes = b.num_nodes := by
  obtain ⟨hal, han, hai⟩ := nodeCountOK_spec a _ _ ha
  obtain ⟨hbl, hbn, hbi⟩ := nodeCountOK_spec b _ _ hb
  by_cases h1 : a.kind = .Leaf
  · obtain ⟨_, h2, h3⟩ := hal h1
    obtain ⟨_, h4, h5⟩ := hbl (hk.symm.trans h1)
    omega
  · by_cases h2 : a.kind = .None
    · obtain ⟨_, h3, h4⟩ := han h2
      obtain ⟨_, h5, h6⟩ := hbn (hk.symm.trans h2)
      omega
    · obtain ⟨h3, h4⟩ := hai h1 h2
      obtain ⟨h5, h6⟩ := hbi (fun c => h1 (hk.trans c)) (fun c => h2 (hk.trans c))
      omega

theorem countsRun_det (l₁ l₂ : List Node) (s u₁ u₂ : List (Int × Int))
    (hf : List.Forall₂ (fun a b => a.kind = b.kind ∧ a.arity = b.arity) l₁ l₂)
    (h₁ : countsRun l₁ s = some u₁) (h₂ : countsRun l₂ s = some u₂) :
    List.Forall₂
      (fun a b => a.num_leaves = b.num_leaves ∧ a.num_nodes = b.num_nodes)
      l₁ l₂ ∧ u₁ = u₂ := by
  induction hf generalizing s with
  | nil =>
    simp only [countsRun, Option.some.injEq] at h₁ h₂
    exact ⟨List.Forall₂.nil, h₁ ▸ h₂ ▸ rfl⟩
  | @cons a b t₁ t₂ hab ht ih =>
    obtain ⟨hkind, harity⟩ := hab
    simp only [countsRun] at h₁ h₂
    rw [← harity] at h₂
    split at h₁
    · exact absurd h₁ (by simp)
    split at h₁
    case isFalse => exact absurd h₁ (by simp)
    split at h₁
    case isFalse => exact absurd h₁ (by simp)
    rename_i hneg hlen hok₁
    rw [if_neg hneg, if_pos hlen] at h₂
    split at h₂
    case isFalse => exact absurd h₂ (by simp)
    case isTrue hok₂ =>
      obtain ⟨hcl, hcn⟩ := nodeCountOK_det a b _ _ hkind hok₁ hok₂
      rw [← hcl, ← hcn] at h₂
      obtain ⟨hfa, hu⟩ := ih _ h₁ h₂
      exact ⟨List.Forall₂.cons ⟨hcl, hcn⟩ hfa, hu⟩

theorem goodBlocks_run (bl : List (List Node)) (hg : GoodBlocks bl) :
    countsRun bl.reverse.flatten [] = some (bl.map blockCounts) := by
  induction bl with
  | nil => simp [countsRun]
  | cons b bt ih =>
    have hgb := hg b (List.mem_cons_self b bt)
    have hgt : GoodBlocks bt := fun x hx => hg x (List.mem_cons_of_mem b hx)
    rw [List.reverse_cons, List.flatten_append, countsRun_append, ih hgt]
    have hfr := countsRun_frame b [] [blockCounts b] (bt.map blockCounts) hgb.2
    simp only [List.nil_append] at hfr
    simp [hfr]

theorem countsRun_blocks (l : List Node) (bl : List (List Node))
    (s' : List (Int × Int)) (hg : GoodBlocks bl)
    (h : countsRun l (bl.map blockCounts) = some s') :
    ∃ bl', GoodBlocks bl' ∧ s' = bl'.map blockCounts ∧
      bl'.reverse.flatten = bl.reverse.flatten ++ l := by
  induction l generalizing bl with
  | nil =>
    simp only [countsRun, Option.some.injEq] at h
    exact ⟨bl, hg, h.symm, by simp⟩
  | cons n rest ih =>
    simp only [countsRun] at h
    split at h
    · exact absurd h (by simp)
    split at h
    case isFalse => exact absurd h (by simp)
    split at h
    case isFalse => exact absurd h (by simp)
    rename_i hneg hlen hok
    rw [List.length_map] at hlen
    have hstack : (bl.map blockCounts).take n.arity.toNat =
        (bl.take n.arity.toNat).map blockCounts :=
      (List.map_take _ _ _).symm
    rw [hstack] at hok
    have htake : GoodBlocks (bl.take n.arity.toNat) :=
      fun x hx => hg x (List.take_subset _ bl hx)
    have hdrop : GoodBlocks (bl.drop n.arity.toNat) :=
      fun x hx => hg x (List.drop_subset _ bl hx)
    have hlen_take : (bl.take n.arity.toNat).length = n.arity.toNat := by
      rw [List.length_take]; omega
    have hbc : blockCounts ((bl.take n.arity.toNat).reverse.flatten ++ [n]) =
        (n.num_leaves, n.num_nodes) := by
      simp [blockCounts, List.getLast?_concat]
    have hSlen : ((bl.take n.arity.toNat).map blockCounts).length =
        n.arity.toNat := by
      rw [List.length_map, hlen_take]
    have hSa : ((bl.take n.arity.toNat).map blockCounts).take n.arity.toNat =
        (bl.take n.arity.toNat).map blockCounts :=
      List.take_of_length_le (le_of_eq hSlen)
    have hSd : ((bl.take n.arity.toNat).map blockCounts).drop n.arity.toNat =
        [] :=
      List.drop_eq_nil_of_le (le_of_eq hSlen)
    have hrun_nb :
        countsRun ((bl.take n.arity.toNat).reverse.flatten ++ [n]) [] =
          some [(n.num_leaves, n.num_nodes)] := by
      rw [countsRun_append, goodBlocks_run _ htake]
      simp only [Option.some_bind, countsRun]
      rw [if_neg hneg, if_pos (le_of_eq hSlen.symm), hSa, if_pos hok, hSd]
    have hg' : GoodBlocks
        (((bl.take n.arity.toNat).reverse.flatten ++ [n]) ::
          bl.drop n.arity.toNat) := by
      intro x hx
      rcases List.mem_cons.mp hx with hx | hx
      · subst hx
        exact ⟨by simp, by rw [hbc]; exact hrun_nb⟩
      · exact hdrop x hx
    have hmatch : (n.num_leaves, n.num_nodes) ::
        (bl.map blockCounts).drop n.arity.toNat =
        ((((bl.take n.arity.toNat).reverse.flatten ++ [n]) ::
          bl.drop n.arity.toNat).map blockCounts) := by
      simp only [List.map_cons, hbc]
      rw [List.map_drop]
    rw [hmatch] at h
    obtain ⟨bl', hg'', hs', hfl⟩ := ih _ hg' h
    refine ⟨bl', hg'', hs', ?_⟩
    rw [hfl]
    conv_rhs => rw [← List.take_append_drop n.arity.toNat bl]
    rw [List.reverse_append, List.flatten_append, List.reverse_cons,
      List.flatten_append]
    simp [List.append_assoc]

theorem countsRun_decompose (l : List Node) (s' : List (Int × Int))
    (h : countsRun l [] = some s') :
    ∃ bl, GoodBlocks bl ∧ s' = bl.map blockCounts ∧
      bl.reverse.flatten = l := by
  have := countsRun_blocks l [] s' (fun b hb => absurd hb (by simp)) (by simpa)
  simpa using this

theorem wfCounts_run (s : PyTreeSpec) (h : wfCounts s = true) :
    ∃ c, countsRun s.m_traversal [] = some [c] := by
  unfold wfCounts at h
  split at h
  · rename_i heq
    exact ⟨_, heq⟩
  · exact absurd h (by simp)

theorem wfCounts_root (s : PyTreeSpec) (h : wfCounts s = true) :
    ∃ root, s.m_traversal.getLast? = some root ∧
      countsRun s.m_traversal [] =
        some [(root.num_leaves, root.num_nodes)] ∧
      root.num_leaves = leafCount s.m_traversal ∧
      root.num_nodes = (s.m_traversal.length : Int) := by
  obtain ⟨c, hc⟩ := wfCounts_run s h
  have hne : s.m_traversal ≠ [] := by
    intro he
    rw [he] at hc
    simp only [countsRun, Option.some.injEq] at hc
    exact (by simpa using hc)
  obtain ⟨root, hroot⟩ := Option.isSome_iff_exists.mp
    (List.getLast?_isSome.mpr hne)
  obtain ⟨rest, hrest⟩ := countsRun_last _ _ _ _ hroot hc
  obtain ⟨hcpair, hrestnil⟩ : c = (root.num_leaves, root.num_nodes) ∧
      rest = [] := by
    constructor <;> [exact (List.cons.injEq _ _ _ _ ▸ hrest).1;
      exact ((List.cons.injEq _ _ _ _ ▸ hrest).2).symm]
  obtain ⟨h1, h2⟩ := countsRun_sums _ _ _ hc
  simp only [List.map_cons, List.map_nil, List.sum_cons, List.sum_nil,
    List.map_nil] at h1 h2
  subst hcpair
  refine ⟨root, hroot, hc, ?_, ?_⟩ <;> omega

theorem goodBlock_counts (b : List Node) (hb : b ≠ [])
    (hrun : countsRun b [] = some [blockCounts b]) :
    (blockCounts b).1 = leafCount b ∧ (blockCounts b).2 = (b.length : Int) := by
  obtain ⟨h1, h2⟩ := countsRun_sums _ _ _ hrun
  simp only [List.map_cons, List.map_nil, List.sum_cons, List.sum_nil] at h1 h2
  constructor <;> omega


theorem wfCounts_split (s : PyTreeSpec) (root : Node)
    (h : wfCounts s = true) (hroot : s.m_traversal.getLast? = some root) :
    ∃ smid, countsRun s.m_traversal.dropLast [] = some smid ∧
      (smid.length : Int) = root.arity ∧
      nodeCountOK root (smid.map Prod.fst).sum (smid.map Prod.snd).sum =
        true := by
  obtain ⟨c, hc⟩ := wfCounts_run s h
  have hne : s.m_traversal ≠ [] := by
    intro he
    rw [he] at hc
    simp only [countsRun, Option.some.injEq] at hc
    simp at hc
  have hroot' : s.m_traversal.getLast hne = root := by
    have hg := List.getLast?_eq_getLast s.m_traversal hne
    rw [hg] at hroot
    exact Option.some.inj hroot
  have hsplit : s.m_traversal.dropLast ++ [root] = s.m_traversal := by
    rw [← hroot']
    exact List.dropLast_append_getLast hne
  rw [← hsplit, countsRun_append] at hc
  rcases hmid : countsRun s.m_traversal.dropLast [] with _ | smid
  · rw [hmid] at hc
    simp at hc
  · rw [hmid] at hc
    simp only [Option.some_bind] at hc
    simp only [countsRun] at hc
    split at hc
    · exact absurd hc (by simp)
    split at hc
    case isFalse => exact absurd hc (by simp)
    split at hc
    case isFalse => exact absurd hc (by simp)
    rename_i hneg hlen hok
    simp only [countsRun, Option.some.injEq] at hc
    have hdrop : smid.drop root.arity.toNat = [] := by
      have := (List.cons.injEq _ _ _ _ ▸ hc).2
      exact this.symm ▸ rfl
    have hlen' : smid.length = root.arity.toNat := by
      have := List.drop_eq_nil_iff_le.mp hdrop
      omega
    have htake : smid.take root.arity.toNat = smid :=
      List.take_of_length_le (le_of_eq hlen')
    rw [htake] at hok
    refine ⟨smid, rfl, ?_, hok⟩
    rw [hlen']
    exact Int.toNat_of_nonneg (by omega)

theorem childrenLoop_blocks (s : PyTreeSpec) (bl : List (List Node))
    (tail' : List Node) (acc : List PyTreeSpec) (hg : GoodBlocks bl)
    (hsplit : s.m_traversal = bl.reverse.flatten ++ tail') :
    childrenLoop s bl.length ((bl.reverse.flatten.length : Int)) acc =
      .ok ((bl.reverse.map fun b =>
        { m_traversal := b, m_none_is_leaf := s.m_none_is_leaf,
          m_namespace := s.m_namespace }) ++ acc) := by
  induction bl generalizing tail' acc with
  | nil => simp [childrenLoop]
  | cons b bt ih =>
    have hgb := hg b (List.mem_cons_self b bt)
    have hgt : GoodBlocks bt := fun x hx => hg x (List.mem_cons_of_mem b hx)
    obtain ⟨hbne, hbrun⟩ := hgb
    obtain ⟨_, hbc2⟩ := goodBlock_counts b hbne hbrun
    obtain ⟨r, hr⟩ := Option.isSome_iff_exists.mp
      (List.getLast?_isSome.mpr hbne)
    have hrc : blockCounts b = (r.num_leaves, r.num_nodes) := by
      simp [blockCounts, hr]
    have hrn : r.num_nodes = (b.length : Int) := by
      rw [hrc] at hbc2
      exact hbc2
    have hfront : (b :: bt).reverse.flatten =
        bt.reverse.flatten ++ b := by
      rw [List.reverse_cons, List.flatten_append]
      simp
    have hblen : 1 ≤ b.length := by
      cases b with
      | nil => exact absurd rfl hbne
      | cons x xs => simp
    have hposval : ((b :: bt).reverse.flatten.length : Int) =
        (bt.reverse.flatten.length : Int) + (b.length : Int) := by
      rw [hfront]
      push_cast [List.length_append]
      ring
    have hget : s.m_traversal.get?
        ((((b :: bt).reverse.flatten.length : Int) - 1).toNat) = some r := by
      rw [hsplit]
      have hidx : (((b :: bt).reverse.flatten.length : Int) - 1).toNat =
          (b :: bt).reverse.flatten.length - 1 := by
        omega
      rw [hidx]
      have hlt : (b :: bt).reverse.flatten.length - 1 <
          (b :: bt).reverse.flatten.length := by
        rw [hfront, List.length_append]
        omega
      rw [List.get?_append hlt]
      rw [← List.getLast?_eq_get?]
      rw [hfront, List.getLast?_append]
      simp [hr]
    rw [List.length_cons]
    simp only [childrenLoop]
    simp only [hget]
    have hc1 : ¬((((b :: bt).reverse.flatten.length : Int) - 1) < 0) := by
      rw [hposval]
      omega
    have hc2 : ¬(((b :: bt).reverse.flatten.length : Int) < r.num_nodes) := by
      rw [hposval, hrn]
      omega
    rw [if_neg hc1, if_neg hc2]
    have hposnat : (((b :: bt).reverse.flatten.length : Int)).toNat =
        (b :: bt).reverse.flatten.length := by
      omega
    have hslice : (s.m_traversal.take
        (((b :: bt).reverse.flatten.length : Int)).toNat).drop
        ((((b :: bt).reverse.flatten.length : Int) - r.num_nodes).toNat) =
        b := by
      rw [hposnat, hsplit]
      rw [List.take_left]
      rw [hfront]
      have : (((b :: bt).reverse.flatten.length : Int) - r.num_nodes).toNat =
          bt.reverse.flatten.length := by
        rw [hposval, hrn]
        omega
      rw [hfront] at this
      rw [this]
      exact List.drop_left _ _
    rw [hslice]
    have hrec : ((b :: bt).reverse.flatten.length : Int) - r.num_nodes =
        (bt.reverse.flatten.length : Int) := by
      rw [hposval, hrn]
      ring
    rw [hrec]
    rw [ih (b ++ tail') _ hgt (by rw [hsplit, hfront]; simp)]
    congr 1
    rw [List.reverse_cons, List.map_append]
    simp

theorem Children_wf (s : PyTreeSpec) (root : Node) (h : wfCounts s = true)
    (hroot : s.m_traversal.getLast? = some root) :
    ∃ bl, GoodBlocks bl ∧ bl.reverse.flatten = s.m_traversal.dropLast ∧
      ((bl.length : Int) = root.arity) ∧
      s.Children = .ok (bl.reverse.map fun b =>
        { m_traversal := b, m_none_is_leaf := s.m_none_is_leaf,
          m_namespace := s.m_namespace }) := by
  obtain ⟨smid, hmid, hlen, hok⟩ := wfCounts_split s root h hroot
  obtain ⟨bl, hg, hs, hfl⟩ := countsRun_decompose _ _ hmid
  have hne : s.m_traversal ≠ [] := by
    intro he
    rw [he] at hroot
    simp at hroot
  have hbllen : (bl.length : Int) = root.arity := by
    rw [hs, List.length_map] at hlen
    exact hlen
  have hsplit : s.m_traversal = bl.reverse.flatten ++ [root] := by
    rw [hfl]
    have hroot' : s.m_traversal.getLast hne = root := by
      have hg' := List.getLast?_eq_getLast s.m_traversal hne
      rw [hg'] at hroot
      exact Option.some.inj hroot
    rw [← hroot']
    exact (List.dropLast_append_getLast hne).symm
  refine ⟨bl, hg, hfl, hbllen, ?_⟩
  unfold PyTreeSpec.Children
  simp only [hroot]
  rw [if_neg (by omega)]
  have harity : root.arity.toNat = bl.length := by omega
  have hpos : (s.m_traversal.length : Int) - 1 =
      (bl.reverse.flatten.length : Int) := by
    rw [hsplit, List.length_append, List.length_singleton]
    push_cast
    ring
  rw [harity, hpos]
  simpa using childrenLoop_blocks s bl [root] [] hg hsplit

theorem getLast?_decomp {α : Type _} (l : List α) (r : α)
    (h : l.getLast? = some r) : l = l.dropLast ++ [r] := by
  have hne : l ≠ [] := by
    intro he
    rw [he] at h
    simp at h
  have hg := List.getLast?_eq_getLast l hne
  rw [hg] at h
  rw [← Option.some.inj h]
  exact (List.dropLast_append_getLast hne).symm

theorem mem_of_getLast {α : Type _} (l : List α) (r : α)
    (h : l.getLast? = some r) : r ∈ l := by
  rw [getLast?_decomp l r h]
  simp

theorem wf_arity0_singleton (s : PyTreeSpec) (root : Node)
    (h : wfCounts s = true) (hroot : s.m_traversal.getLast? = some root)
    (ha : root.arity = 0) : s.m_traversal = [root] := by
  obtain ⟨smid, hmid, hlen, _⟩ := wfCounts_split s root h hroot
  have hnil : smid = [] := by
    have : smid.length = 0 := by omega
    exact List.length_eq_zero.mp this
  subst hnil
  obtain ⟨_, h2⟩ := countsRun_sums _ _ _ hmid
  simp only [List.map_nil, List.sum_nil] at h2
  have : s.m_traversal.dropLast = [] :=
    List.length_eq_zero.mp (by omega)
  have hd := getLast?_decomp _ _ hroot
  rw [this] at hd
  simpa using hd


theorem Compose_ok (outer inner : PyTreeSpec) (oroot iroot : Node)
    (hwo : wfCounts outer = true) (hwi : wfCounts inner = true)
    (ho : outer.m_traversal.getLast? = some oroot)
    (hi : inner.m_traversal.getLast? = some iroot)
    (hflag : outer.m_none_is_leaf = inner.m_none_is_leaf)
    (hns : ¬(¬outer.m_namespace.isEmpty ∧ ¬inner.m_namespace.isEmpty ∧
      outer.m_namespace ≠ inner.m_namespace)) :
    ∃ root',
      outer.Compose inner = .ok
        { m_traversal := outer.m_traversal.flatMap fun node =>
            if node.kind = .Leaf then inner.m_traversal
            else [{ node with
                    num_leaves := node.num_leaves * iroot.num_leaves,
                    num_nodes := (node.num_nodes - node.num_leaves) +
                      node.num_leaves * (inner.m_traversal.length : Int) }],
          m_none_is_leaf := outer.m_none_is_leaf,
          m_namespace := if inner.m_namespace.isEmpty then outer.m_namespace
            else inner.m_namespace } ∧
      (outer.m_traversal.flatMap fun node =>
          if node.kind = .Leaf then inner.m_traversal
          else [{ node with
                  num_leaves := node.num_leaves * iroot.num_leaves,
                  num_nodes := (node.num_nodes - node.num_leaves) +
                    node.num_leaves * (inner.m_traversal.length : Int) }]).getLast?
        = some root' ∧
      root'.num_leaves = oroot.num_leaves * iroot.num_leaves ∧
      root'.num_nodes = ((outer.m_traversal.length : Int) - oroot.num_leaves) +
        oroot.num_leaves * (inner.m_traversal.length : Int) := by
  obtain ⟨oroot', ho', horun, holeaf, honodes⟩ := wfCounts_root outer hwo
  rw [ho] at ho'
  have hoeq : oroot' = oroot := (Option.some.inj ho').symm
  rw [hoeq] at horun holeaf honodes
  obtain ⟨iroot', hi', hirun, hileaf, hinodes⟩ := wfCounts_root inner hwi
  rw [hi] at hi'
  have hieq : iroot' = iroot := (Option.some.inj hi').symm
  rw [hieq] at hirun hileaf hinodes
  have hlast : ∃ root',
      (outer.m_traversal.flatMap fun node =>
        if node.kind = .Leaf then inner.m_traversal
        else [{ node with
                num_leaves := node.num_leaves * iroot.num_leaves,
                num_nodes := (node.num_nodes - node.num_leaves) +
                  node.num_leaves * (inner.m_traversal.length : Int) }]).getLast?
        = some root' ∧
      root'.num_leaves = oroot.num_leaves * iroot.num_leaves ∧
      root'.num_nodes = ((outer.m_traversal.length : Int) - oroot.num_leaves) +
        oroot.num_leaves * (inner.m_traversal.length : Int) := by
    by_cases hk : oroot.kind = .Leaf
    · obtain ⟨ha, hl, _⟩ :=
        ((countsRun_leaf_nodes _ _ _ horun) oroot
          (mem_of_getLast _ _ ho)).1 hk
      have hsingle := wf_arity0_singleton outer oroot hwo ho ha
      refine ⟨iroot, ?_, ?_, ?_⟩
      · rw [hsingle, List.flatMap_cons, List.flatMap_nil, List.append_nil,
          if_pos hk]
        exact hi
      · rw [hl]; ring
      · rw [hsingle, hl, hinodes]; simp
    · have hd := getLast?_decomp _ _ ho
      refine ⟨{ oroot with
          num_leaves := oroot.num_leaves * iroot.num_leaves,
          num_nodes := (oroot.num_nodes - oroot.num_leaves) +
            oroot.num_leaves * (inner.m_traversal.length : Int) }, ?_, ?_, ?_⟩
      · conv_lhs => rw [hd]
        rw [List.flatMap_append, List.flatMap_cons, List.flatMap_nil,
          List.append_nil, if_neg hk]
        exact List.getLast?_concat _
      · rfl
      · simp only [honodes]
  obtain ⟨root', hlast', hrl, hrn⟩ := hlast
  refine ⟨root', ?_, hlast', hrl, hrn⟩
  unfold PyTreeSpec.Compose
  rw [if_neg (by simp [hflag]), if_neg hns]
  simp only [ho, hi, hlast']
  rw [if_neg (fun c => c hrl), if_neg (fun c => c hrn)]

theorem nodeDataNotEqual_self (d : Option PyObj) :
    nodeDataNotEqual d d = false := by
  cases d <;> simp [nodeDataNotEqual]

theorem nodesEq_refl (l : List Node) : nodesEq l l = .ok true := by
  induction l with
  | nil => rfl
  | cons n t ih =>
    simp only [nodesEq]
    rw [if_neg (by simp), if_neg (by simp [nodeDataNotEqual_self]),
      if_neg (by simp), if_neg (by simp)]
    exact ih

theorem nodesEq_append_left (xs l₁ l₂ : List Node) :
    nodesEq (xs ++ l₁) (xs ++ l₂) = nodesEq l₁ l₂ := by
  induction xs with
  | nil => rfl
  | cons n t ih =>
    simp only [List.cons_append, nodesEq]
    rw [if_neg (by simp), if_neg (by simp [nodeDataNotEqual_self]),
      if_neg (by simp), if_neg (by simp)]
    exact ih

theorem nodesEq_ok_true (l₁ l₂ : List Node) (hlen : l₁.length = l₂.length)
    (h : nodesEq l₁ l₂ = .ok true) :
    List.Forall₂ (fun a b => nodeAgree a b ∧ a.num_leaves = b.num_leaves ∧
      a.num_nodes = b.num_nodes) l₁ l₂ := by
  induction l₁ generalizing l₂ with
  | nil =>
    cases l₂ with
    | nil => exact List.Forall₂.nil
    | cons b bs => simp at hlen
  | cons a as ih =>
    cases l₂ with
    | nil => simp at hlen
    | cons b bs =>
      simp only [nodesEq] at h
      split at h
      case isTrue => simp at h
      split at h
      case isTrue => simp at h
      split at h
      case isTrue => simp at h
      split at h
      case isTrue => simp at h
      rename_i hcond hdata hnl hnn
      push_neg at hcond
      obtain ⟨hk, ha, hnull, hc⟩ := hcond
      push_neg at hnl hnn
      have hdata' : (a.node_data = Option.none ∧ b.node_data = Option.none) ∨
          (a.node_data ≠ Option.none ∧ b.node_data ≠ Option.none ∧
            a.node_data = b.node_data) := by
        cases hda : a.node_data with
        | none =>
          cases hdb : b.node_data with
          | none => exact Or.inl ⟨rfl, rfl⟩
          | some y =>
            rw [hda, hdb] at hnull
            simp at hnull
        | some x =>
          cases hdb : b.node_data with
          | none =>
            rw [hda, hdb] at hnull
            simp at hnull
          | some y =>
            rw [hda, hdb] at hdata
            simp only [nodeDataNotEqual, decide_eq_true_eq] at hdata
            have hxy : x = y := by
              by_contra hne
              exact hdata (by simp [hne])
            exact Or.inr ⟨by simp, by simp, by simp [hxy]⟩
      simp only [List.length_cons, Nat.add_right_cancel_iff] at hlen
      exact List.Forall₂.cons ⟨⟨hk, ha, hc, hdata'⟩, hnl, hnn⟩
        (ih bs hlen h)

theorem nodesEq_of_forall (l₁ l₂ : List Node)
    (hf : List.Forall₂ (fun a b => nodeAgree a b ∧
      a.num_leaves = b.num_leaves ∧ a.num_nodes = b.num_nodes) l₁ l₂) :
    nodesEq l₁ l₂ = .ok true := by
  induction hf with
  | nil => rfl
  | cons hab ht ih =>
    obtain ⟨⟨hk, ha, hc, hd⟩, hl, hn⟩ := hab
    rename_i a b as bs
    have hdeq : nodeDataNotEqual a.node_data b.node_data = false := by
      rcases hd with ⟨h1, h2⟩ | ⟨_, _, heq⟩
      · rw [h1, h2]
        rfl
      · rw [heq]
        exact nodeDataNotEqual_self _
    have hnull : a.node_data.isNone = b.node_data.isNone := by
      rcases hd with ⟨h1, h2⟩ | ⟨_, _, heq⟩
      · rw [h1, h2]
      · rw [heq]
    simp only [nodesEq]
    rw [if_neg (by simp [hk, ha, hc, hnull]), if_neg (by simp [hdeq]),
      if_neg (by simp [hl]), if_neg (by simp [hn])]
    exact ih

theorem forall2_both {α β : Type _} {P Q : α → β → Prop}
    {l₁ : List α} {l₂ : List β}
    (hp : List.Forall₂ P l₁ l₂) (hq : List.Forall₂ Q l₁ l₂) :
    List.Forall₂ (fun a b => P a b ∧ Q a b) l₁ l₂ := by
  induction hp with
  | nil => exact List.Forall₂.nil
  | cons h t ih =>
    cases hq with
    | cons h' t' => exact List.Forall₂.cons ⟨h, h'⟩ (ih t')

/-- **C5**: for well-formed treespecs, `operator==` returns `true` exactly
when the traversals have the same length, the `none_is_leaf` flags agree,
the namespaces are equal or at least one is empty, and every position
agrees on `kind`, `arity`, `custom` pointer identity and `node_data` (both
absent, or both present and equal by host-value equality). -/
theorem C5_opEq_characterization (a b : PyTreeSpec)
    (hwa : wfCounts a = true) (hwb : wfCounts b = true) :
    a.opEq b = .ok true ↔ specEqClaim a b := by
  constructor
  · intro h
    unfold PyTreeSpec.opEq at h
    split at h
    case isTrue => simp at h
    split at h
    case isTrue => simp at h
    rename_i h1 h2
    push_neg at h1
    obtain ⟨hlen, hflag⟩ := h1
    have hforall := nodesEq_ok_true _ _ hlen h
    have hget := (List.forall₂_iff_get.mp hforall).2
    refine ⟨hlen, hflag, ?_, ?_⟩
    · by_cases he1 : a.m_namespace = ""
      · exact Or.inr (Or.inl he1)
      · by_cases he2 : b.m_namespace = ""
        · exact Or.inr (Or.inr he2)
        · left
          by_contra hne
          exact h2 ⟨by rw [String.isEmpty_iff]; exact he1,
            by rw [String.isEmpty_iff]; exact he2, hne⟩
    · intro i hi
      have hi' : i < b.m_traversal.length := hlen ▸ hi
      rw [List.get?_eq_get hi, List.get?_eq_get hi']
      exact (hget i hi hi').1
  · intro h
    obtain ⟨hlen, hflag, hns, hpos⟩ := h
    have hagree : List.Forall₂ nodeAgree a.m_traversal b.m_traversal := by
      rw [List.forall₂_iff_get]
      refine ⟨hlen, fun i h₁ h₂ => ?_⟩
      have := hpos i h₁
      rwa [List.get?_eq_get h₁, List.get?_eq_get h₂] at this
    obtain ⟨ca, hca⟩ := wfCounts_run a hwa
    obtain ⟨cb, hcb⟩ := wfCounts_run b hwb
    have hka : List.Forall₂ (fun x y => x.kind = y.kind ∧ x.arity = y.arity)
        a.m_traversal b.m_traversal :=
      hagree.imp fun {_ _} hxy => ⟨hxy.1, hxy.2.1⟩
    obtain ⟨hcounts, _⟩ := countsRun_det _ _ _ _ _ hka hca hcb
    have hcomb := forall2_both hagree hcounts
    have heq : nodesEq a.m_traversal b.m_traversal = .ok true :=
      nodesEq_of_forall _ _
        (hcomb.imp fun {_ _} hxy => ⟨hxy.1, hxy.2.1, hxy.2.2⟩)
    unfold PyTreeSpec.opEq
    rw [if_neg (by simp [hlen, hflag]), if_neg ?_]
    · exact heq
    · rintro ⟨he1, he2, hne⟩
      rw [String.isEmpty_iff] at he1 he2
      rcases hns with h | h | h
      · exact hne h
      · exact he1 h
      · exact he2 h

/-- **C5 witness**: the characterization applied to two concrete
well-formed treespecs. -/
theorem C5_opEq_characterization_witness :
    wfCounts specListW = true ∧ wfCounts specLeafNsW = true ∧
    (specListW.opEq specListW = .ok true ↔ specEqClaim specListW specListW) ∧
    (specListW.opEq specLeafNsW = .ok true ↔
      specEqClaim specListW specLeafNsW) :=
  ⟨by decide, by decide,
    C5_opEq_characterization specListW specListW (by decide) (by decide),
    C5_opEq_characterization specListW specLeafNsW (by decide) (by decide)⟩

theorem dataHash_congr (a b : Node) (hk : a.kind = b.kind)
    (ha : a.arity = b.arity) (hd : a.node_data = b.node_data) :
    dataHash a = dataHash b := by
  unfold dataHash
  rw [hk, ha, hd]

theorem nodeHashData_congr (a b : Node) (hk : a.kind = b.kind)
    (ha : a.arity = b.arity) (hd : a.node_data = b.node_data)
    (hc : a.custom = b.custom) (hl : a.num_leaves = b.num_leaves)
    (hn : a.num_nodes = b.num_nodes) :
    nodeHashData a = nodeHashData b := by
  unfold nodeHashData
  rw [dataHash_congr a b hk ha hd, hk, ha, hc, hl, hn]

theorem nodeHashList_congr (l₁ l₂ : List Node)
    (hf : List.Forall₂ (fun a b => nodeHashData a = nodeHashData b) l₁ l₂) :
    nodeHashList l₁ = nodeHashList l₂ := by
  induction hf with
  | nil => rfl
  | cons h t ih =>
    simp only [nodeHashList]
    rw [h, ih]

theorem dataAgree_of_eq (x y : Option PyObj) (h : x = y) :
    (x = Option.none ∧ y = Option.none) ∨
    (x ≠ Option.none ∧ y ≠ Option.none ∧ x = y) := by
  subst h
  cases x with
  | none => exact Or.inl ⟨rfl, rfl⟩
  | some v => exact Or.inr ⟨by simp, by simp, rfl⟩

theorem nodeAgree_data_eq (a b : Node) (h : nodeAgree a b) :
    a.node_data = b.node_data := by
  rcases h.2.2.2 with ⟨h1, h2⟩ | ⟨_, _, heq⟩
  · rw [h1, h2]
  · exact heq

theorem opEq_ok_true_parts (a b : PyTreeSpec) (h : a.opEq b = .ok true) :
    a.m_traversal.length = b.m_traversal.length ∧
    a.m_none_is_leaf = b.m_none_is_leaf ∧
    List.Forall₂ (fun x y => nodeAgree x y ∧ x.num_leaves = y.num_leaves ∧
      x.num_nodes = y.num_nodes) a.m_traversal b.m_traversal := by
  unfold PyTreeSpec.opEq at h
  split at h
  case isTrue => simp at h
  split at h
  case isTrue => simp at h
  rename_i h1 h2
  push_neg at h1
  exact ⟨h1.1, h1.2, nodesEq_ok_true _ _ h1.1 h⟩

/-- **C3 counterexample**: two treespecs equal under `operator==` (their
namespaces are `""` and `"ns"`, which the equality treats as matching) whose
hash fingerprints differ, because the hash combines the namespace. -/
theorem C3_counterexample :
    PyTreeSpec.opEq specLeafW specLeafNsW = .ok true ∧
    specHashData specLeafW ≠ specHashData specLeafNsW := by
  decide

/-- **C3 (amended)**: `a == b` implies `hash(a) == hash(b)` for pairs whose
namespaces are equal; the original claim fails only through the namespace
leniency of `operator==` exhibited by the counterexample. -/
theorem C3_hash_consistency_amended (a b : PyTreeSpec)
    (heq : a.opEq b = .ok true) (hns : a.m_namespace = b.m_namespace) :
    specHashData a = specHashData b := by
  obtain ⟨hlen, hflag, hf⟩ := opEq_ok_true_parts a b heq
  have hnodes : nodeHashList a.m_traversal = nodeHashList b.m_traversal :=
    nodeHashList_congr _ _ (hf.imp fun {_ _} hxy =>
      nodeHashData_congr _ _ hxy.1.1 hxy.1.2.1 (nodeAgree_data_eq _ _ hxy.1)
        hxy.1.2.2.1 hxy.2.1 hxy.2.2)
  unfold specHashData
  rw [hnodes, hflag, hns]

/-- **C3 (amended) witness**: the amended hash consistency applied to a
concrete pair. -/
theorem C3_hash_consistency_amended_witness :
    specListW.opEq specListW = .ok true ∧
    specHashData specListW = specHashData specListW :=
  ⟨by decide, C3_hash_consistency_amended specListW specListW
    (by decide) rfl⟩

/-- **C10**: two treespecs whose traversals differ only in `node_entries`
(all other node fields, `none_is_leaf` and the namespace identical) are
equal under `operator==` and have equal hash fingerprints: neither equality
nor the hash inspects `node_entries`. -/
theorem C10_entries_ignored (a b : PyTreeSpec)
    (h : sameExceptEntries a b) :
    a.opEq b = .ok true ∧ specHashData a = specHashData b := by
  obtain ⟨hflag, hns, hf⟩ := h
  have hlen := hf.length_eq
  constructor
  · unfold PyTreeSpec.opEq
    rw [if_neg (by simp [hlen, hflag]), if_neg (by simp [hns])]
    refine nodesEq_of_forall _ _ (hf.imp fun {_ _} hxy => ?_)
    exact ⟨⟨hxy.1, hxy.2.1, hxy.2.2.2.1,
      dataAgree_of_eq _ _ hxy.2.2.1⟩, hxy.2.2.2.2.1, hxy.2.2.2.2.2⟩
  · have hnodes : nodeHashList a.m_traversal = nodeHashList b.m_traversal :=
      nodeHashList_congr _ _ (hf.imp fun {_ _} hxy =>
        nodeHashData_congr _ _ hxy.1 hxy.2.1 hxy.2.2.1 hxy.2.2.2.1
          hxy.2.2.2.2.1 hxy.2.2.2.2.2)
    unfold specHashData
    rw [hnodes, hflag, hns]

/-- **C10 witness**: two concrete treespecs differing only in the root
node's `node_entries` are `==`-equal and hash-equal. -/
theorem C10_entries_ignored_witness :
    sameExceptEntries specLeafW specEntriesW ∧
    (specLeafW.opEq specEntriesW = .ok true ∧
      specHashData specLeafW = specHashData specEntriesW) :=
  ⟨by decide, C10_entries_ignored specLeafW specEntriesW (by decide)⟩

/-- **C9**: the hash of a `Custom` node ignores `node_data`: any two
`Custom` nodes agreeing on `arity`, `custom` identity, `num_leaves` and
`num_nodes` have equal hash fingerprints, and two treespecs that differ
only in the auxiliary data of `Custom` nodes hash identically (even though
`operator==` can distinguish them by comparing `node_data`). -/
theorem C9_custom_data_excluded :
    (∀ n₁ n₂ : Node, n₁.kind = .Custom → n₂.kind = .Custom →
      n₁.arity = n₂.arity → n₁.custom = n₂.custom →
      n₁.num_leaves = n₂.num_leaves → n₁.num_nodes = n₂.num_nodes →
      nodeHashData n₁ = nodeHashData n₂) ∧
    (∀ a b : PyTreeSpec, sameExceptCustomData a b →
      specHashData a = specHashData b) := by
  have hnode : ∀ n₁ n₂ : Node, n₁.kind = .Custom → n₂.kind = .Custom →
      n₁.arity = n₂.arity → n₁.custom = n₂.custom →
      n₁.num_leaves = n₂.num_leaves → n₁.num_nodes = n₂.num_nodes →
      nodeHashData n₁ = nodeHashData n₂ := by
    intro n₁ n₂ hk1 hk2 ha hc hl hn
    unfold nodeHashData dataHash
    rw [hk1, hk2, ha, hc, hl, hn]
  refine ⟨hnode, fun a b h => ?_⟩
  obtain ⟨hflag, hns, hf⟩ := h
  have hnodes : nodeHashList a.m_traversal = nodeHashList b.m_traversal := by
    refine nodeHashList_congr _ _ (hf.imp fun {x y} hxy => ?_)
    by_cases hk : x.kind = .Custom
    · exact hnode x y hk (hxy.1 ▸ hk) hxy.2.1 hxy.2.2.2.1
        hxy.2.2.2.2.1 hxy.2.2.2.2.2.1
    · exact nodeHashData_congr x y hxy.1 hxy.2.1
        (hxy.2.2.2.2.2.2 hk) hxy.2.2.2.1 hxy.2.2.2.2.1 hxy.2.2.2.2.2.1
  unfold specHashData
  rw [hnodes, hflag, hns]

/-- **C9 witness**: two concrete treespecs differing only in the `Custom`
root's auxiliary data are distinguished by `operator==` but hash
identically. -/
theorem C9_custom_data_excluded_witness :
    sameExceptCustomData specCustomW specCustomW2 ∧
    specCustomW.opEq specCustomW2 = .ok false ∧
    specHashData specCustomW = specHashData specCustomW2 :=
  ⟨by decide, by decide,
    C9_custom_data_excluded.2 specCustomW specCustomW2 (by decide)⟩

/-- **C1**: for well-formed treespecs with the same `none_is_leaf` and
compatible namespaces, `outer.compose(inner)` succeeds; every copied
non-`Leaf` node of `outer` gets `num_leaves` multiplied by `inner`'s root
leaf count and `num_nodes` updated to
`(old num_nodes − old num_leaves) + old num_leaves × inner.num_nodes`
(each `Leaf` is replaced by a copy of `inner`'s traversal), and the result's
root satisfies `num_leaves = outer.num_leaves × inner.num_leaves` and
`num_nodes = (outer.num_nodes − outer.num_leaves) +
outer.num_leaves × inner.num_nodes`. -/
theorem C1_compose_counts (outer inner : PyTreeSpec)
    (hwo : wfCounts outer = true) (hwi : wfCounts inner = true)
    (hflag : outer.m_none_is_leaf = inner.m_none_is_leaf)
    (hns : ¬(¬outer.m_namespace.isEmpty ∧ ¬inner.m_namespace.isEmpty ∧
      outer.m_namespace ≠ inner.m_namespace)) :
    ∃ (res : PyTreeSpec) (ol il : Int),
      outer.num_leaves = .ok ol ∧ inner.num_leaves = .ok il ∧
      outer.Compose inner = .ok res ∧
      res.m_traversal = (outer.m_traversal.flatMap fun node =>
        if node.kind = .Leaf then inner.m_traversal
        else [{ node with
                num_leaves := node.num_leaves * il,
                num_nodes := (node.num_nodes - node.num_leaves) +
                  node.num_leaves * inner.num_nodes }]) ∧
      ∃ root', res.m_traversal.getLast? = some root' ∧
        root'.num_leaves = ol * il ∧
        root'.num_nodes = (outer.num_nodes - ol) + ol * inner.num_nodes := by
  obtain ⟨oroot, ho, _, _, _⟩ := wfCounts_root outer hwo
  obtain ⟨iroot, hi, _, _, _⟩ := wfCounts_root inner hwi
  obtain ⟨root', hok, hlast, hrl, hrn⟩ :=
    Compose_ok outer inner oroot iroot hwo hwi ho hi hflag hns
  refine ⟨_, oroot.num_leaves, iroot.num_leaves, ?_, ?_, hok, rfl,
    root', hlast, hrl, hrn⟩
  · unfold PyTreeSpec.num_leaves
    rw [ho]
  · unfold PyTreeSpec.num_leaves
    rw [hi]

/-- **C1 witness**: composing the treespec of `[0, 0]` with the treespec of
`(0, 0)`. -/
theorem C1_compose_counts_witness :
    wfCounts specListW = true ∧ wfCounts specTupleW = true ∧
    (∃ (res : PyTreeSpec) (ol il : Int),
      specListW.num_leaves = .ok ol ∧ specTupleW.num_leaves = .ok il ∧
      specListW.Compose specTupleW = .ok res ∧
      res.m_traversal = (specListW.m_traversal.flatMap fun node =>
        if node.kind = .Leaf then specTupleW.m_traversal
        else [{ node with
                num_leaves := node.num_leaves * il,
                num_nodes := (node.num_nodes - node.num_leaves) +
                  node.num_leaves * specTupleW.num_nodes }]) ∧
      ∃ root', res.m_traversal.getLast? = some root' ∧
        root'.num_leaves = ol * il ∧
        root'.num_nodes = (specListW.num_nodes - ol) +
          ol * specTupleW.num_nodes) :=
  ⟨by decide, by decide,
    C1_compose_counts specListW specTupleW (by decide) (by decide) rfl
      (by decide)⟩

/-- **C8**: for well-formed treespecs, `outer.compose(inner)` fails exactly
when the `none_is_leaf` flags differ or both namespaces are non-empty and
different; on success the result carries the shared flag and the non-empty
namespace of the two (the outer one when `inner`'s is empty). -/
theorem C8_compose_failure (outer inner : PyTreeSpec)
    (hwo : wfCounts outer = true) (hwi : wfCounts inner = true) :
    ((∃ e, outer.Compose inner = .error e) ↔
      (outer.m_none_is_leaf ≠ inner.m_none_is_leaf ∨
       (¬outer.m_namespace.isEmpty ∧ ¬inner.m_namespace.isEmpty ∧
        outer.m_namespace ≠ inner.m_namespace))) ∧
    (∀ res, outer.Compose inner = .ok res →
      res.m_none_is_leaf = outer.m_none_is_leaf ∧
      res.m_namespace = (if inner.m_namespace.isEmpty then
        outer.m_namespace else inner.m_namespace)) := by
  by_cases hflag : outer.m_none_is_leaf = inner.m_none_is_leaf
  · by_cases hnscl : (¬outer.m_namespace.isEmpty ∧
        ¬inner.m_namespace.isEmpty ∧
        outer.m_namespace ≠ inner.m_namespace)
    · have herr : outer.Compose inner =
          .error "PyTreeSpecs must have the same namespace." := by
        unfold PyTreeSpec.Compose
        rw [if_neg (by simp [hflag]), if_pos hnscl]
      refine ⟨⟨fun _ => Or.inr hnscl, fun _ => ⟨_, herr⟩⟩, ?_⟩
      intro res hres
      rw [herr] at hres
      exact absurd hres (by simp)
    · obtain ⟨oroot, ho, _, _, _⟩ := wfCounts_root outer hwo
      obtain ⟨iroot, hi, _, _, _⟩ := wfCounts_root inner hwi
      obtain ⟨root', hok, _, _, _⟩ :=
        Compose_ok outer inner oroot iroot hwo hwi ho hi hflag hnscl
      refine ⟨⟨?_, ?_⟩, ?_⟩
      · rintro ⟨e, he⟩
        rw [hok] at he
        exact absurd he (by simp)
      · rintro (hc | hc)
        · exact absurd hflag hc
        · exact absurd hc hnscl
      · intro res hres
        rw [hok] at hres
        have hinj := Except.ok.inj hres
        rw [← hinj]
        exact ⟨rfl, rfl⟩
  · have herr : outer.Compose inner =
        .error "PyTreeSpecs must have the same none_is_leaf value." := by
      unfold PyTreeSpec.Compose
      rw [if_pos hflag]
    refine ⟨⟨fun _ => Or.inl hflag, fun _ => ⟨_, herr⟩⟩, ?_⟩
    intro res hres
    rw [herr] at hres
    exact absurd hres (by simp)

/-- **C8 witness**: the failure characterization applied to a concrete
well-formed pair (equal flags and namespaces, so composition succeeds). -/
theorem C8_compose_failure_witness :
    wfCounts specListW = true ∧ wfCounts specTupleW = true ∧
    (((∃ e, specListW.Compose specTupleW = .error e) ↔
      (specListW.m_none_is_leaf ≠ specTupleW.m_none_is_leaf ∨
       (¬specListW.m_namespace.isEmpty ∧ ¬specTupleW.m_namespace.isEmpty ∧
        specListW.m_namespace ≠ specTupleW.m_namespace))) ∧
    (∀ res, specListW.Compose specTupleW = .ok res →
      res.m_none_is_leaf = specListW.m_none_is_leaf ∧
      res.m_namespace = (if specTupleW.m_namespace.isEmpty then
        specListW.m_namespace else specTupleW.m_namespace))) :=
  ⟨by decide, by decide,
    C8_compose_failure specListW specTupleW (by decide) (by decide)⟩

theorem tupleCheckLoop_ok (b : Bool) (common : String) :
    ∀ (l : List PyTreeSpec) (start : String),
    (∀ t ∈ l, t.m_none_is_leaf = b) →
    (∀ t ∈ l, ¬t.m_namespace.isEmpty → t.m_namespace = common) →
    (start.isEmpty = true ∨ start = common) →
    ∃ out, tupleCheckLoop b l start = .ok out ∧
      (out.isEmpty = true ∨ out = common) := by
  intro l
  induction l with
  | nil => exact fun start _ _ hs => ⟨start, rfl, hs⟩
  | cons t ts ih =>
    intro start hflag hns hs
    have htf := hflag t (List.mem_cons_self t ts)
    have hflag' : ∀ x ∈ ts, x.m_none_is_leaf = b :=
      fun x hx => hflag x (List.mem_cons_of_mem t hx)
    have hns' : ∀ x ∈ ts, ¬x.m_namespace.isEmpty → x.m_namespace = common :=
      fun x hx => hns x (List.mem_cons_of_mem t hx)
    simp only [tupleCheckLoop]
    rw [if_neg (by simp [htf])]
    by_cases hte : t.m_namespace.isEmpty
    · rw [if_neg (by simp [hte])]
      exact ih start hflag' hns' hs
    · rw [if_pos (by simp [hte])]
      have htc : t.m_namespace = common :=
        hns t (List.mem_cons_self t ts) (by simp [hte])
      rcases hs with hs | hs
      · rw [if_pos hs]
        exact ih t.m_namespace hflag' hns' (Or.inr htc)
      · have hcne : ¬common.isEmpty = true := by
          rw [← htc]
          exact hte
        rw [if_neg (by rw [hs]; exact hcne)]
        rw [if_neg (fun c => c (by rw [hs, htc]))]
        exact ih start hflag' hns' (Or.inr hs)

theorem tupleSumLoop_ok (l : List PyTreeSpec)
    (hne : ∀ t ∈ l, t.m_traversal ≠ []) :
    ∀ (acc : List Node) (accL : Int),
    tupleSumLoop l acc accL =
      .ok (acc ++ l.flatMap PyTreeSpec.m_traversal,
        accL + (l.map fun t => (blockCounts t.m_traversal).1).sum) := by
  induction l with
  | nil =>
    intro acc accL
    simp [tupleSumLoop]
  | cons t ts ih =>
    intro acc accL
    have htne := hne t (List.mem_cons_self t ts)
    obtain ⟨r, hr⟩ := Option.isSome_iff_exists.mp
      (List.getLast?_isSome.mpr htne)
    have hne' : ∀ x ∈ ts, x.m_traversal ≠ [] :=
      fun x hx => hne x (List.mem_cons_of_mem t hx)
    simp only [tupleSumLoop, hr]
    rw [ih hne' (acc ++ t.m_traversal) (accL + r.num_leaves)]
    congr 1
    rw [List.flatMap_cons, List.map_cons, List.sum_cons, List.append_assoc]
    have : (blockCounts t.m_traversal).1 = r.num_leaves := by
      simp [blockCounts, hr]
    rw [this]
    congr 1
    ring

theorem Tuple_ok (l : List PyTreeSpec) (b : Bool) (common : String)
    (hflag : ∀ t ∈ l, t.m_none_is_leaf = b)
    (hns : ∀ t ∈ l, ¬t.m_namespace.isEmpty → t.m_namespace = common)
    (hne : ∀ t ∈ l, t.m_traversal ≠ []) :
    ∃ ns, (ns.isEmpty = true ∨ ns = common) ∧
      PyTreeSpec.Tuple l b = .ok
        { m_traversal := (l.flatMap PyTreeSpec.m_traversal) ++
            [{ kind := .Tuple, arity := (l.length : Int),
               num_leaves :=
                 (l.map fun t => (blockCounts t.m_traversal).1).sum,
               num_nodes :=
                 ((l.flatMap PyTreeSpec.m_traversal).length : Int) + 1 }],
          m_none_is_leaf := b, m_namespace := ns } := by
  obtain ⟨ns, hck, hns'⟩ := tupleCheckLoop_ok b common l "" hflag hns
    (Or.inl rfl)
  refine ⟨ns, hns', ?_⟩
  unfold PyTreeSpec.Tuple
  rw [hck, tupleSumLoop_ok l hne [] 0]
  simp only [Except.bind, List.nil_append, Int.zero_add]
  rfl

theorem num_leaves_blockCounts (t : PyTreeSpec) (h : t.m_traversal ≠ []) :
    t.num_leaves = .ok (blockCounts t.m_traversal).1 := by
  obtain ⟨r, hr⟩ := Option.isSome_iff_exists.mp (List.getLast?_isSome.mpr h)
  unfold PyTreeSpec.num_leaves
  rw [hr]
  simp [blockCounts, hr]

theorem wfCounts_ne_nil (t : PyTreeSpec) (h : wfCounts t = true) :
    t.m_traversal ≠ [] := by
  obtain ⟨root, hroot, _⟩ := wfCounts_root t h
  intro he
  rw [he] at hroot
  simp at hroot

/-- **C7**: for treespecs sharing the `none_is_leaf` flag, with pairwise
equal non-empty namespaces and well-formed (non-empty) traversals, the
tuple constructor succeeds and returns the concatenation of the children's
traversals followed by one `Tuple` root whose `arity` is the number of
children, whose `num_leaves` is the sum of the children's root leaf counts,
and whose `num_nodes` is one plus the sum of the children's traversal
lengths. -/
theorem C7_tuple_construction (l : List PyTreeSpec) (b : Bool)
    (hflag : ∀ t ∈ l, t.m_none_is_leaf = b)
    (hpair : ∀ t ∈ l, ∀ u ∈ l, ¬t.m_namespace.isEmpty →
      ¬u.m_namespace.isEmpty → t.m_namespace = u.m_namespace)
    (hwf : ∀ t ∈ l, wfCounts t = true) :
    ∃ out, PyTreeSpec.Tuple l b = .ok out ∧
      out.m_traversal = (l.flatMap PyTreeSpec.m_traversal) ++
        [{ kind := .Tuple, arity := (l.length : Int),
           num_leaves := (l.map fun t => (blockCounts t.m_traversal).1).sum,
           num_nodes :=
             ((l.flatMap PyTreeSpec.m_traversal).length : Int) + 1 }] ∧
      out.m_none_is_leaf = b ∧
      List.Forall₂ (fun t (v : Int) => t.num_leaves = .ok v) l
        (l.map fun t => (blockCounts t.m_traversal).1) := by
  have hne : ∀ t ∈ l, t.m_traversal ≠ [] :=
    fun t ht => wfCounts_ne_nil t (hwf t ht)
  have hcommon : ∃ common, ∀ t ∈ l, ¬t.m_namespace.isEmpty →
      t.m_namespace = common := by
    by_cases hex : ∃ t, t ∈ l ∧ ¬t.m_namespace.isEmpty = true
    · obtain ⟨t0, ht0, hne0⟩ := hex
      exact ⟨t0.m_namespace,
        fun t ht hnet => hpair t ht t0 ht0 hnet hne0⟩
    · exact ⟨"", fun t ht hnet => absurd ⟨t, ht, hnet⟩ hex⟩
  obtain ⟨common, hns⟩ := hcommon
  obtain ⟨ns, _, hok⟩ := Tuple_ok l b common hflag hns hne
  refine ⟨_, hok, rfl, rfl, ?_⟩
  rw [List.forall₂_map_right_iff, List.forall₂_same]
  exact fun t ht => num_leaves_blockCounts t (hne t ht)

/-- **C7 witness**: the tuple constructor applied to two concrete
well-formed treespecs. -/
theorem C7_tuple_construction_witness :
    (∀ t ∈ [specLeafW, specListW], wfCounts t = true) ∧
    (∃ out, PyTreeSpec.Tuple [specLeafW, specListW] false = .ok out ∧
      out.m_traversal =
        (([specLeafW, specListW].flatMap PyTreeSpec.m_traversal)) ++
        [{ kind := .Tuple, arity := (([specLeafW, specListW].length : Int)),
           num_leaves := ([specLeafW, specListW].map
             fun t => (blockCounts t.m_traversal).1).sum,
           num_nodes := ((([specLeafW, specListW].flatMap
             PyTreeSpec.m_traversal).length : Int)) + 1 }] ∧
      out.m_none_is_leaf = false ∧
      List.Forall₂ (fun t (v : Int) => t.num_leaves = .ok v)
        [specLeafW, specListW]
        ([specLeafW, specListW].map
          fun t => (blockCounts t.m_traversal).1)) :=
  ⟨by decide, C7_tuple_construction [specLeafW, specListW] false
    (by decide) (by decide) (by decide)⟩

theorem goodBlocks_sum_leaves (bl : List (List Node)) (hg : GoodBlocks bl) :
    (bl.map fun b => (blockCounts b).1).sum = leafCount bl.flatten := by
  induction bl with
  | nil => simp [leafCount]
  | cons b bt ih =>
    have hgb := hg b (List.mem_cons_self b bt)
    have hgt : GoodBlocks bt := fun x hx => hg x (List.mem_cons_of_mem b hx)
    simp only [List.map_cons, List.sum_cons, List.flatten_cons]
    rw [ih hgt, (goodBlock_counts b hgb.1 hgb.2).1]
    unfold leafCount
    rw [List.countP_append]
    push_cast
    ring


theorem opEq_of_parts (a b : PyTreeSpec)
    (hlen : a.m_traversal.length = b.m_traversal.length)
    (hflag : a.m_none_is_leaf = b.m_none_is_leaf)
    (hns : ¬(¬a.m_namespace.isEmpty ∧ ¬b.m_namespace.isEmpty ∧
      a.m_namespace ≠ b.m_namespace))
    (hnodes : nodesEq a.m_traversal b.m_traversal = .ok true) :
    a.opEq b = .ok true := by
  unfold PyTreeSpec.opEq
  rw [if_neg (by simp [hlen, hflag]), if_neg hns]
  exact hnodes

theorem nodesEq_singleton (x y : Node)
    (hk : x.kind = y.kind) (ha : x.arity = y.arity)
    (hd : x.node_data = y.node_data) (hc : x.custom = y.custom)
    (hl : x.num_leaves = y.num_leaves) (hn : x.num_nodes = y.num_nodes) :
    nodesEq [x] [y] = .ok true :=
  nodesEq_of_forall _ _
    (List.Forall₂.cons ⟨⟨hk, ha, hc, dataAgree_of_eq _ _ hd⟩, hl, hn⟩
      List.Forall₂.nil)

/-- **C6**: for a well-formed treespec whose root is a `Tuple` node,
`Children` returns exactly `root.arity` treespecs, each carrying the
original `none_is_leaf` and namespace, and rebuilding with the `Tuple`
constructor yields a treespec equal to the original under `operator==`. -/
theorem C6_children_reassembly (s : PyTreeSpec) (root : Node)
    (hwf : wfCounts s = true) (hshape : wfShape s = true)
    (hroot : s.m_traversal.getLast? = some root)
    (hk : root.kind = .Tuple) :
    ∃ cs, s.Children = .ok cs ∧ (cs.length : Int) = root.arity ∧
      (∀ c ∈ cs, c.m_none_is_leaf = s.m_none_is_leaf ∧
        c.m_namespace = s.m_namespace) ∧
      ∃ out, PyTreeSpec.Tuple cs s.m_none_is_leaf = .ok out ∧
        out.opEq s = .ok true := by
  obtain ⟨bl, hg, hfl, hbllen, hch⟩ := Children_wf s root hwf hroot
  obtain ⟨root', hroot', _, hrleaf, hrnodes⟩ := wfCounts_root s hwf
  rw [hroot] at hroot'
  have hre : root' = root := (Option.some.inj hroot').symm
  rw [hre] at hrleaf hrnodes
  have hgr : GoodBlocks bl.reverse :=
    fun b hb => hg b (List.mem_reverse.mp hb)
  have hsdecomp : s.m_traversal = s.m_traversal.dropLast ++ [root] :=
    getLast?_decomp _ _ hroot
  have hrootshape : nodeShapeOK root = true :=
    List.all_eq_true.mp hshape root (mem_of_getLast _ _ hroot)
  have hdata : root.node_data = Option.none ∧
      root.node_entries = Option.none ∧ root.custom = Option.none := by
    simp only [nodeShapeOK, hk, decide_eq_true_eq] at hrootshape
    exact_mod_cast hrootshape
  refine ⟨_, hch, ?_, ?_, ?_⟩
  · rw [List.length_map, List.length_reverse]
    exact hbllen
  · intro c hc
    obtain ⟨b, hb, hbc⟩ := List.mem_map.mp hc
    rw [← hbc]
    exact ⟨rfl, rfl⟩
  · have hflagc : ∀ c ∈ (bl.reverse.map fun b =>
        ({ m_traversal := b, m_none_is_leaf := s.m_none_is_leaf,
           m_namespace := s.m_namespace } : PyTreeSpec)),
        c.m_none_is_leaf = s.m_none_is_leaf := by
      intro c hc
      obtain ⟨b, hb, hbc⟩ := List.mem_map.mp hc
      rw [← hbc]
    have hnsc : ∀ c ∈ (bl.reverse.map fun b =>
        ({ m_traversal := b, m_none_is_leaf := s.m_none_is_leaf,
           m_namespace := s.m_namespace } : PyTreeSpec)),
        ¬c.m_namespace.isEmpty → c.m_namespace = s.m_namespace := by
      intro c hc _
      obtain ⟨b, hb, hbc⟩ := List.mem_map.mp hc
      rw [← hbc]
    have hnec : ∀ c ∈ (bl.reverse.map fun b =>
        ({ m_traversal := b, m_none_is_leaf := s.m_none_is_leaf,
           m_namespace := s.m_namespace } : PyTreeSpec)),
        c.m_traversal ≠ [] := by
      intro c hc
      obtain ⟨b, hb, hbc⟩ := List.mem_map.mp hc
      rw [← hbc]
      exact (hgr b hb).1
    obtain ⟨ns, hnsor, hok⟩ := Tuple_ok _ s.m_none_is_leaf s.m_namespace
      hflagc hnsc hnec
    have htrav : ((bl.reverse.map fun b =>
        ({ m_traversal := b, m_none_is_leaf := s.m_none_is_leaf,
           m_namespace := s.m_namespace } : PyTreeSpec)).flatMap
          PyTreeSpec.m_traversal) = s.m_traversal.dropLast := by
      rw [List.flatMap_map]
      have hfun : (fun (b : List Node) =>
          ({ m_traversal := b, m_none_is_leaf := s.m_none_is_leaf,
             m_namespace := s.m_namespace } : PyTreeSpec).m_traversal) =
          (id : List Node → List Node) := rfl
      rw [hfun, List.flatMap_id]
      exact hfl
    have hsum : ((bl.reverse.map fun b =>
        ({ m_traversal := b, m_none_is_leaf := s.m_none_is_leaf,
           m_namespace := s.m_namespace } : PyTreeSpec)).map
          fun t => (blockCounts t.m_traversal).1).sum =
        root.num_leaves := by
      rw [List.map_map]
      have hcomp : ((fun (t : PyTreeSpec) => (blockCounts t.m_traversal).1) ∘
          fun (b : List Node) =>
            ({ m_traversal := b, m_none_is_leaf := s.m_none_is_leaf,
               m_namespace := s.m_namespace } : PyTreeSpec)) =
          fun (b : List Node) => (blockCounts b).1 := rfl
      rw [hcomp, goodBlocks_sum_leaves bl.reverse hgr, hfl, hrleaf]
      conv_rhs => rw [hsdecomp]
      unfold leafCount
      rw [List.countP_append]
      have hz : List.countP (fun n => decide (n.kind = PyTreeKind.Leaf))
          [root] = 0 := by
        simp [hk]
      rw [hz]
      push_cast
      ring
    have hdll : s.m_traversal.length = s.m_traversal.dropLast.length + 1 := by
      conv_lhs => rw [hsdecomp]
      rw [List.length_append, List.length_singleton]
    refine ⟨_, hok, ?_⟩
    apply opEq_of_parts
    · simp only [List.length_append, htrav, List.length_singleton]
      omega
    · rfl
    · rintro ⟨h1, _, h3⟩
      rcases hnsor with he | he
      · exact h1 he
      · exact h3 he
    · show nodesEq (((bl.reverse.map fun b =>
          ({ m_traversal := b, m_none_is_leaf := s.m_none_is_leaf,
             m_namespace := s.m_namespace } : PyTreeSpec)).flatMap
            PyTreeSpec.m_traversal) ++ _) s.m_traversal = .ok true
      conv_lhs => rw [hsdecomp]
      rw [htrav, nodesEq_append_left]
      apply nodesEq_singleton
      · exact hk.symm
      · show ((bl.reverse.map fun b =>
          ({ m_traversal := b, m_none_is_leaf := s.m_none_is_leaf,
             m_namespace := s.m_namespace } : PyTreeSpec)).length : Int) =
          root.arity
        rw [List.length_map, List.length_reverse]
        exact hbllen
      · exact hdata.1.symm
      · exact hdata.2.2.symm
      · exact hsum
      · show (s.m_traversal.dropLast.length : Int) + 1 = root.num_nodes
        rw [hrnodes, hdll]
        push_cast
        ring

/-- **C6 witness**: children of the concrete tuple treespec `(0, 0)`
reassemble to an equal treespec. -/
theorem C6_children_reassembly_witness :
    wfCounts specTupleW = true ∧ wfShape specTupleW = true ∧
    (∃ cs, specTupleW.Children = .ok cs ∧
      (cs.length : Int) =
        ({ kind := .Tuple, arity := 2, num_leaves := 2,
           num_nodes := 3 } : Node).arity ∧
      (∀ c ∈ cs, c.m_none_is_leaf = specTupleW.m_none_is_leaf ∧
        c.m_namespace = specTupleW.m_namespace) ∧
      ∃ out, PyTreeSpec.Tuple cs specTupleW.m_none_is_leaf = .ok out ∧
        out.opEq specTupleW = .ok true) :=
  ⟨by decide, by decide,
    C6_children_reassembly specTupleW
      { kind := .Tuple, arity := 2, num_leaves := 2, num_nodes := 3 }
      (by decide) (by decide) (by decide) rfl⟩

theorem wfCounts_goodBlock (t : PyTreeSpec) (h : wfCounts t = true) :
    t.m_traversal ≠ [] ∧
    countsRun t.m_traversal [] = some [blockCounts t.m_traversal] := by
  obtain ⟨root, hroot, hrun, _, _⟩ := wfCounts_root t h
  refine ⟨wfCounts_ne_nil t h, ?_⟩
  rw [hrun]
  simp [blockCounts, hroot]


theorem leafCount_append (x y : List Node) :
    leafCount (x ++ y) = leafCount x + leafCount y := by
  unfold leafCount
  rw [List.countP_append]
  push_cast
  ring

theorem compose_leafCount (innerT : List Node) (il inn : Int) :
    ∀ l : List Node,
    leafCount (l.flatMap fun node =>
      if node.kind = .Leaf then innerT
      else [{ node with
                num_leaves := node.num_leaves * il,
                num_nodes := (node.num_nodes - node.num_leaves) +
                  node.num_leaves * inn }]) =
      leafCount l * leafCount innerT := by
  intro l
  induction l with
  | nil => simp [leafCount]
  | cons n rest ih =>
    rw [List.flatMap_cons, leafCount_append, ih, leafCount_cons]
    by_cases hk : n.kind = .Leaf
    · rw [if_pos hk, if_pos hk]
      ring
    · rw [if_neg hk, if_neg hk]
      have hz : leafCount [{ n with
          num_leaves := n.num_leaves * il,
          num_nodes := (n.num_nodes - n.num_leaves) +
            n.num_leaves * inn }] = 0 := by
        simp [leafCount, hk]
      rw [hz]
      ring

theorem compose_length (innerT : List Node) (il inn : Int)
    (hinn : (innerT.length : Int) = inn) :
    ∀ l : List Node,
    ((l.flatMap fun node =>
      if node.kind = .Leaf then innerT
      else [{ node with
                num_leaves := node.num_leaves * il,
                num_nodes := (node.num_nodes - node.num_leaves) +
                  node.num_leaves * inn }]).length : Int) =
      ((l.length : Int) - leafCount l) + leafCount l * inn := by
  intro l
  induction l with
  | nil => simp [leafCount]
  | cons n rest ih =>
    rw [List.flatMap_cons, List.length_append, leafCount_cons]
    by_cases hk : n.kind = .Leaf
    · rw [if_pos hk, if_pos hk]
      push_cast
      rw [ih, ← hinn]
      simp only [List.length_cons]
      push_cast
      ring
    · rw [if_neg hk, if_neg hk]
      push_cast
      rw [ih]
      simp only [List.length_cons, List.length_singleton, List.length_nil]
      push_cast
      ring

theorem leafCount_singleton (n : Node) :
    leafCount [n] = if n.kind = .Leaf then 1 else 0 := by
  rw [leafCount_cons]
  have h0 : leafCount [] = 0 := rfl
  rw [h0]
  ring

/-- **C4 counterexample**: `FromPicklable` accepts a picklable form whose
stored counts are wrong (a single `Leaf` node claiming 5 leaves and
7 nodes) without error, and the resulting treespec violates the count
invariant. -/
theorem C4_counterexample :
    PyTreeSpec.FromPicklable emptyLookup badPickleW = .ok badSpecW ∧
    ¬countInvariant badSpecW := by
  refine ⟨by decide, ?_⟩
  rintro ⟨root, hroot, hl, _⟩
  simp only [badSpecW, List.getLast?_singleton, Option.some.injEq] at hroot
  rw [← hroot] at hl
  exact absurd hl (by decide)

/-- **C4 (amended)**: treespecs built by the constructors `Leaf`, `None`,
`Tuple` (from well-formed children) and `Compose` (from well-formed inputs)
satisfy the count invariants — the root's `num_leaves` is the total number
of `Leaf` nodes and its `num_nodes` is the traversal length.  `FromPicklable`
copies the stored counts without validating them (see the counterexample),
so its output satisfies the invariant only when the input's counts are
correct. -/
theorem C4_construct_invariants :
    (∀ b, countInvariant (PyTreeSpec.Leaf b)) ∧
    (∀ b, countInvariant (PyTreeSpec.None b)) ∧
    (∀ (l : List PyTreeSpec) (b : Bool) (out : PyTreeSpec),
      (∀ t ∈ l, t.m_none_is_leaf = b) →
      (∀ t ∈ l, ∀ u ∈ l, ¬t.m_namespace.isEmpty → ¬u.m_namespace.isEmpty →
        t.m_namespace = u.m_namespace) →
      (∀ t ∈ l, wfCounts t = true) →
      PyTreeSpec.Tuple l b = .ok out → countInvariant out) ∧
    (∀ (outer inner out : PyTreeSpec), wfCounts outer = true →
      wfCounts inner = true → outer.Compose inner = .ok out →
      countInvariant out) := by
  refine ⟨?_, ?_, ?_, ?_⟩
  · intro b
    cases b
    · exact ⟨_, rfl, by decide, by decide⟩
    · exact ⟨_, rfl, by decide, by decide⟩
  · intro b
    cases b
    · exact ⟨_, rfl, by decide, by decide⟩
    · exact ⟨_, rfl, by decide, by decide⟩
  · intro l b out hflag hpair hwf hok
    have hne : ∀ t ∈ l, t.m_traversal ≠ [] :=
      fun t ht => wfCounts_ne_nil t (hwf t ht)
    have hcommon : ∃ common, ∀ t ∈ l, ¬t.m_namespace.isEmpty →
        t.m_namespace = common := by
      by_cases hex : ∃ t, t ∈ l ∧ ¬t.m_namespace.isEmpty = true
      · obtain ⟨t0, ht0, hne0⟩ := hex
        exact ⟨t0.m_namespace,
          fun t ht hnet => hpair t ht t0 ht0 hnet hne0⟩
      · exact ⟨"", fun t ht hnet => absurd ⟨t, ht, hnet⟩ hex⟩
    obtain ⟨common, hns⟩ := hcommon
    obtain ⟨ns, _, hok'⟩ := Tuple_ok l b common hflag hns hne
    rw [hok'] at hok
    rw [← Except.ok.inj hok]
    refine ⟨_, List.getLast?_concat _, ?_, ?_⟩
    · have hgb : GoodBlocks (l.map PyTreeSpec.m_traversal) := by
        intro x hx
        obtain ⟨t, ht, htx⟩ := List.mem_map.mp hx
        obtain ⟨h1, h2⟩ := wfCounts_goodBlock t (hwf t ht)
        rw [← htx]
        exact ⟨h1, h2⟩
      have hsum := goodBlocks_sum_leaves (l.map PyTreeSpec.m_traversal) hgb
      rw [List.map_map] at hsum
      have hflt : (l.map PyTreeSpec.m_traversal).flatten =
          l.flatMap PyTreeSpec.m_traversal := by
        rw [← List.flatMap_id]
        rw [List.flatMap_map]
        rfl
      rw [hflt] at hsum
      show (l.map fun t => (blockCounts t.m_traversal).1).sum =
        leafCount ((l.flatMap PyTreeSpec.m_traversal) ++ _)
      rw [leafCount_append, leafCount_singleton,
        if_neg (by decide : ¬(PyTreeKind.Tuple = PyTreeKind.Leaf))]
      rw [show ((fun b => (blockCounts b).1) ∘ PyTreeSpec.m_traversal) =
        (fun t => (blockCounts t.m_traversal).1) from rfl] at hsum
      rw [← hsum]
      ring
    · show (((l.flatMap PyTreeSpec.m_traversal).length : Int) + 1) =
        (((l.flatMap PyTreeSpec.m_traversal) ++ _).length : Int)
      rw [List.length_append, List.length_singleton]
      push_cast
      ring
  · intro outer inner out hwo hwi hok
    have hflag : outer.m_none_is_leaf = inner.m_none_is_leaf := by
      by_contra hc
      have herr : outer.Compose inner =
          .error "PyTreeSpecs must have the same none_is_leaf value." := by
        unfold PyTreeSpec.Compose
        rw [if_pos hc]
      rw [herr] at hok
      exact absurd hok (by simp)
    have hnscl : ¬(¬outer.m_namespace.isEmpty ∧ ¬inner.m_namespace.isEmpty ∧
        outer.m_namespace ≠ inner.m_namespace) := by
      by_contra hc
      have herr : outer.Compose inner =
          .error "PyTreeSpecs must have the same namespace." := by
        unfold PyTreeSpec.Compose
        rw [if_neg (by simp [hflag]), if_pos hc]
      rw [herr] at hok
      exact absurd hok (by simp)
    obtain ⟨oroot, ho, _, holeaf, honodes⟩ := wfCounts_root outer hwo
    obtain ⟨iroot, hi, _, hileaf, hinodes⟩ := wfCounts_root inner hwi
    obtain ⟨root', hok', hlast, hrl, hrn⟩ :=
      Compose_ok outer inner oroot iroot hwo hwi ho hi hflag hnscl
    rw [hok'] at hok
    rw [← Except.ok.inj hok]
    refine ⟨root', hlast, ?_, ?_⟩
    · rw [hrl, compose_leafCount inner.m_traversal iroot.num_leaves
        (inner.m_traversal.length : Int) outer.m_traversal,
        holeaf, hileaf]
    · rw [hrn, compose_length inner.m_traversal iroot.num_leaves
        (inner.m_traversal.length : Int) rfl outer.m_traversal, holeaf]

/-- **C4 (amended) witness**: the constructor invariants applied at
concrete inputs. -/
theorem C4_construct_invariants_witness :
    countInvariant (PyTreeSpec.Leaf false) ∧
    countInvariant (PyTreeSpec.None false) ∧
    PyTreeSpec.Tuple [specLeafW, specListW] false = .ok tupleOutW ∧
    countInvariant tupleOutW ∧
    specListW.Compose specTupleW = .ok composeOutW ∧
    countInvariant composeOutW :=
  ⟨C4_construct_invariants.1 false, C4_construct_invariants.2.1 false,
    by decide,
    C4_construct_invariants.2.2.1 [specLeafW, specListW] false tupleOutW
      (by decide) (by decide) (by decide) (by decide),
    by decide,
    C4_construct_invariants.2.2.2 specListW specTupleW composeOutW
      (by decide) (by decide) (by decide)⟩

theorem ordKind_kindOrd (k : PyTreeKind) : ordKind (kindOrd k) = some k := by
  cases k <;> rfl

theorem fromPicklable_node_roundtrip (lookup : RegistryLookup) (flag : Bool)
    (ns : String) (n : Node) (hshape : nodeShapeOK n = true)
    (hreg : nodeRegConsistent lookup ns flag n = true) :
    fromPicklableNode lookup flag ns (toPicklableNode n) = .ok n := by
  obtain ⟨kind, arity, nd, ne, cu, nl, nn⟩ := n
  cases kind
  case Leaf =>
    simp only [nodeShapeOK, decide_eq_true_eq] at hshape
    obtain ⟨h1, h2, h3⟩ := hshape
    subst h1; subst h2; subst h3
    rfl
  case None =>
    simp only [nodeShapeOK, decide_eq_true_eq] at hshape
    obtain ⟨h1, h2, h3⟩ := hshape
    subst h1; subst h2; subst h3
    rfl
  case Tuple =>
    simp only [nodeShapeOK, decide_eq_true_eq] at hshape
    obtain ⟨h1, h2, h3⟩ := hshape
    subst h1; subst h2; subst h3
    rfl
  case List =>
    simp only [nodeShapeOK, decide_eq_true_eq] at hshape
    obtain ⟨h1, h2, h3⟩ := hshape
    subst h1; subst h2; subst h3
    rfl
  case Dict =>
    simp only [nodeShapeOK, decide_eq_true_eq] at hshape
    obtain ⟨h1, h2, h3⟩ := hshape
    subst h2; subst h3
    match nd, h1 with
    | some (.list xs), _ => rfl
  case OrderedDict =>
    simp only [nodeShapeOK, decide_eq_true_eq] at hshape
    obtain ⟨h1, h2, h3⟩ := hshape
    subst h2; subst h3
    match nd, h1 with
    | some (.list xs), _ => rfl
  case NamedTuple =>
    simp only [nodeShapeOK, decide_eq_true_eq] at hshape
    obtain ⟨h1, h2, h3⟩ := hshape
    subst h2; subst h3
    match nd, h1 with
    | some (.pytype p), _ => rfl
  case StructSequence =>
    simp only [nodeShapeOK, decide_eq_true_eq] at hshape
    obtain ⟨h1, h2, h3⟩ := hshape
    subst h2; subst h3
    match nd, h1 with
    | some (.pytype p), _ => rfl
  case DefaultDict =>
    simp only [nodeShapeOK, decide_eq_true_eq] at hshape
    obtain ⟨h1, h2, h3⟩ := hshape
    subst h2; subst h3
    match nd, h1 with
    | some x, _ => rfl
  case Deque =>
    simp only [nodeShapeOK, decide_eq_true_eq] at hshape
    obtain ⟨h1, h2, h3⟩ := hshape
    subst h2; subst h3
    match nd, h1 with
    | some x, _ => rfl
  case Custom =>
    simp only [nodeShapeOK, decide_eq_true_eq] at hshape
    obtain ⟨h1, h2, h3⟩ := hshape
    simp only [nodeRegConsistent, if_pos] at hreg
    obtain ⟨x, hx⟩ := Option.isSome_iff_exists.mp h1
    subst hx
    match cu, h3, hreg with
    | some ⟨rid, rty⟩, h3, hreg =>
      rw [decide_eq_true_eq] at hreg
      match rty, h3, hreg with
      | .pytype p, _, hreg =>
        match ne, h2 with
        | Option.none, _ =>
          simp only [fromPicklableNode, toPicklableNode]
          simp only [hreg]
          rfl
        | some (.tuple xs), _ =>
          simp only [fromPicklableNode, toPicklableNode]
          simp only [hreg]
          rfl

theorem fromPicklableNodes_roundtrip (lookup : RegistryLookup) (flag : Bool)
    (ns : String) (l : List Node)
    (hshape : ∀ n ∈ l, nodeShapeOK n = true)
    (hreg : ∀ n ∈ l, nodeRegConsistent lookup ns flag n = true) :
    fromPicklableNodes lookup flag ns (l.map toPicklableNode) = .ok l := by
  induction l with
  | nil => rfl
  | cons n rest ih =>
    rw [List.map_cons]
    simp only [fromPicklableNodes]
    rw [fromPicklable_node_roundtrip lookup flag ns n
      (hshape n (List.mem_cons_self n rest))
      (hreg n (List.mem_cons_self n rest)),
      ih (fun m hm => hshape m (List.mem_cons_of_mem n hm))
        (fun m hm => hreg m (List.mem_cons_of_mem n hm))]
    rfl

/-- **C2**: for every treespec satisfying the section-3 shape invariants
whose `Custom` registrations are consistent with the registry, decoding the
pickled form through that registry restores the treespec exactly — every
field of every node, `none_is_leaf` and the namespace — and in particular
yields a treespec equal to the original under `operator==`. -/
theorem C2_pickle_roundtrip (lookup : RegistryLookup) (s : PyTreeSpec)
    (hshape : wfShape s = true) (hreg : regConsistent lookup s = true) :
    PyTreeSpec.FromPicklable lookup s.ToPicklable = .ok s ∧
    s.opEq s = .ok true := by
  constructor
  · show Except.bind (fromPicklableNodes lookup s.m_none_is_leaf
      s.m_namespace (s.m_traversal.map toPicklableNode)) _ = _
    rw [fromPicklableNodes_roundtrip lookup s.m_none_is_leaf s.m_namespace
      s.m_traversal
      (fun m hm => List.all_eq_true.mp hshape m hm)
      (fun m hm => List.all_eq_true.mp hreg m hm)]
    rfl
  · exact opEq_of_parts s s rfl rfl (by simp) (nodesEq_refl s.m_traversal)

/-- **C2 witness**: the codec round-trip at a concrete two-node treespec
with a `Custom` root resolved through a concrete registry. -/
theorem C2_pickle_roundtrip_witness :
    wfShape specCustomW = true ∧
    regConsistent lookupW specCustomW = true ∧
    PyTreeSpec.FromPicklable lookupW specCustomW.ToPicklable =
      .ok specCustomW ∧
    specCustomW.opEq specCustomW = .ok true :=
  ⟨by decide, by decide,
    (C2_pickle_roundtrip lookupW specCustomW (by decide) (by decide)).1,
    (C2_pickle_roundtrip lookupW specCustomW (by decide) (by decide)).2⟩
